import Mathlib

/-!
Verification development for the `state` package of the disgo repository
(`dvm/ethereum/state/statedb.go`).

The StateDB and its operations are translated from the Go source.  The two
collaborator types that live outside the provided source tree — the change
journal and the per-account `stateObject` — are modelled from the
specification (§4.1–§4.3).  Machine integers that can never overflow in the
modelled scenarios (`nonce`, `refund`, lengths, revision ids) are modelled as
`Nat`; the arbitrary-precision `big.Int` balance is modelled as `Int`.

Conventions of the embedding:
* Addresses, hashes and error values are abstract (`Nat`).
* Go maps are association lists with first-match lookup; `insertA` replaces
  any previous binding, mirroring Go map assignment.
* Trie writes (`TryUpdate`/`TryDelete`) are modelled as infallible — no claim
  under consideration concerns write-path trie failures.  Trie reads are
  fallible: a read of an absent key can carry an error (which `getStateObject`
  memoizes via `setError`), and a stored entry can be undecodable (`corrupt`),
  mirroring the three outcomes of `TryGet` + RLP decode in the source.
* The collaborator hash functions (account-trie hash, storage-trie hash) and
  the external Badger account store consulted by `createObject` are supplied
  through the `Database` environment record.
-/

/-- Abstract 20-byte account address. -/
abbrev Addr := Nat

/-- Abstract 32-byte hash. -/
abbrev Hash := Nat

/-- Abstract error value (Go `error`). -/
abbrev Err := Nat

/-- Abstract byte string. -/
abbrev Bytes := List Nat

/-- Abstract VM log record; no claim inspects log contents, so the record is
opaque. -/
abbrev LogRec := Nat

/-- Sentinel for the hash of empty code (`emptyCode` in the source). -/
def emptyCodeHash : Hash := 0

/-- Sentinel for the empty storage-trie root (`emptyState` in the source). -/
def emptyStateRoot : Hash := 0

/-- Association-list lookup, first binding wins (Go map read); keys are the
abstract addresses/hashes (`Nat`). -/
def lookupA {α : Type} (l : List (Nat × α)) (k : Nat) : Option α :=
  (l.find? (fun p => p.1 == k)).map (fun p => p.2)

/-- Association-list update: bind `k` to `v`, dropping any previous binding
(Go map assignment). -/
def insertA {α : Type} (l : List (Nat × α)) (k : Nat) (v : α) : List (Nat × α) :=
  (k, v) :: l.filter (fun p => p.1 != k)

/-- Association-list deletion (Go `delete`). -/
def eraseA {α : Type} (l : List (Nat × α)) (k : Nat) : List (Nat × α) :=
  l.filter (fun p => p.1 != k)

/-- Set insertion on an address list (Go `map[Addr]struct\x7b\x7d` write). -/
def insertS (l : List Addr) (a : Addr) : List Addr :=
  if a ∈ l then l else a :: l

/-- Set deletion on an address list (Go `delete` on a set-map). -/
def eraseS (l : List Addr) (a : Addr) : List Addr :=
  l.filter (fun b => b != a)

/-- The persisted account record (`commons/types.Account`): balance, nonce,
code hash, storage root and bookkeeping timestamps, keyed by its address. -/
structure Account where
  address : Addr
  balance : Int
  nonce : Nat
  codeHash : Hash
  storageRoot : Hash
  created : Nat
  updated : Nat
deriving DecidableEq, Repr

/-- Modelled from the spec (§4.3): one account's in-memory shadow.  Wraps the
persisted `Account` with lazily loaded code, the storage-slot caches and the
`suicided` / `deleted` / `touched` flags. -/
structure StateObject where
  account : Account
  code : Option Bytes
  dirtyCode : Bool
  suicided : Bool
  deleted : Bool
  touched : Bool
  cachedStorage : List (Hash × Hash)
  dirtyStorage : List (Hash × Hash)
  storage : List (Hash × Hash)
deriving DecidableEq, Repr

/-- Modelled from the spec (EIP-161, §3): balance = 0 ∧ nonce = 0 ∧ codeHash
is the empty-code sentinel. -/
def StateObject.isEmptyAccount (o : StateObject) : Bool :=
  o.account.balance == 0 && o.account.nonce == 0 && o.account.codeHash == emptyCodeHash

/-- Modelled from the spec (§4.1): the closed sum of journal deltas.  Each
variant captures exactly the data listed in the delta taxonomy table. -/
inductive JournalEntry where
  | createObjectChange (account : Addr)
  | resetObjectChange (prev : StateObject)
  | suicideChange (account : Addr) (prev : Bool) (prevbalance : Int)
  | balanceChange (account : Addr) (prev : Int)
  | nonceChange (account : Addr) (prev : Nat)
  | storageChange (account : Addr) (key : Hash) (prevalue : Hash)
  | codeChange (account : Addr) (prevhash : Hash) (prevcode : Bytes)
  | refundChange (prev : Nat)
  | addLogChange (txhash : Hash)
  | addPreimageChange (hash : Hash)
  | touchChange (account : Addr) (prev : Bool)
deriving DecidableEq, Repr

/-- Modelled from the spec (§4.1): the account whose dirty-bit the delta
implies; none for the refund/log/preimage deltas. -/
def JournalEntry.dirtiedAddress : JournalEntry → Option Addr
  | .createObjectChange a => some a
  | .resetObjectChange prev => some prev.account.address
  | .suicideChange a _ _ => some a
  | .balanceChange a _ => some a
  | .nonceChange a _ => some a
  | .storageChange a _ _ => some a
  | .codeChange a _ _ => some a
  | .refundChange _ => none
  | .addLogChange _ => none
  | .addPreimageChange _ => none
  | .touchChange a _ => some a

/-- Modelled from the spec (§4.2): an append-only list of deltas plus the
`dirties` refcount map, here a multiset of addresses (refcount = number of
occurrences). -/
structure Journal where
  entries : List JournalEntry
  dirties : List Addr
deriving DecidableEq, Repr

/-- A fresh, empty journal (`newJournal`). -/
def newJournal : Journal := { entries := [], dirties := [] }

/-- Modelled from the spec (§4.2): push the delta; if it carries an address,
bump that address's dirties refcount. -/
def Journal.append (j : Journal) (e : JournalEntry) : Journal :=
  { entries := j.entries ++ [e],
    dirties := match e.dirtiedAddress with
      | some a => a :: j.dirties
      | none => j.dirties }

/-- Journal length (`journal.length()`). -/
def Journal.length (j : Journal) : Nat := j.entries.length

/-- The reach of a `TryGet` + RLP-decode on the account trie: a decodable
stored account, an undecodable (corrupt) entry, or nothing. -/
inductive TrieSlot where
  | stored (a : Account)
  | corrupt
deriving DecidableEq, Repr

/-- The account trie collaborator: its decoded contents, a read-error oracle
for absent keys, and the error its `Commit` reports. -/
structure Trie where
  slots : List (Addr × TrieSlot)
  getErr : List (Addr × Err)
  commitErr : Option Err
deriving DecidableEq, Repr

/-- The `Database` collaborator (§6) together with the environment functions
the model leaves abstract: the trie hash functions and the external Badger
account store consulted by `createObject`. -/
structure Database where
  openTrie : Hash → Except Err Trie
  badger : Addr → Option Account
  storageHash : List (Hash × Hash) → Hash
  trieHash : List (Addr × TrieSlot) → Hash

/-- A snapshot revision: the id handed out by `Snapshot` and the journal
length captured at that moment (`revision` in the source). -/
structure Revision where
  id : Nat
  journalIndex : Nat
deriving DecidableEq, Repr

/-- The StateDB record, one field per field of the Go struct (the mutex is
not modelled; the spec fixes single-threaded ownership). -/
structure StateDB where
  db : Database
  trie : Trie
  stateObjects : List (Addr × StateObject)
  stateObjectsDirty : List Addr
  dbErr : Option Err
  refund : Nat
  thash : Hash
  bhash : Hash
  txIndex : Nat
  logs : List (Hash × List LogRec)
  logSize : Nat
  preimages : List (Hash × Bytes)
  journal : Journal
  validRevisions : List Revision
  nextRevisionId : Nat

/-- The state `New(root, db)` builds once `OpenTrie` has succeeded. -/
def mkState (db : Database) (tr : Trie) : StateDB :=
  { db := db, trie := tr, stateObjects := [], stateObjectsDirty := [],
    dbErr := none, refund := 0, thash := 0, bhash := 0, txIndex := 0,
    logs := [], logSize := 0, preimages := [], journal := newJournal,
    validRevisions := [], nextRevisionId := 0 }

/-- `New`: open the account trie at `root`; on failure return the error. -/
def StateDB.new (db : Database) (root : Hash) : Except Err StateDB :=
  match db.openTrie root with
  | .error e => .error e
  | .ok tr => .ok (mkState db tr)

/-- `setError`: remember the first non-nil error. -/
def StateDB.setError (s : StateDB) (e : Option Err) : StateDB :=
  if s.dbErr = none then { s with dbErr := e } else s

/-- Modelled from the spec (§4.3): construct a live `stateObject` for `addr`
around the given account data; code unloaded, flags clear, caches empty.  The
object is keyed by `addr`, so its account record carries `addr` as address. -/
def newStateObject (addr : Addr) (data : Account) : StateObject :=
  { account := { data with address := addr }, code := none, dirtyCode := false,
    suicided := false, deleted := false, touched := false,
    cachedStorage := [], dirtyStorage := [], storage := [] }

/-- `setStateObject`: insert the object into the live set, keyed by the
address recorded in its account. -/
def StateDB.setStateObject (s : StateDB) (o : StateObject) : StateDB :=
  { s with stateObjects := insertA s.stateObjects o.account.address o }

/-- `getStateObject`: prefer the live object (nil if `deleted`); otherwise
`TryGet` from the trie — empty result memoizes the read error and yields
nothing, an undecodable entry yields nothing without an error, and a decoded
account is installed into the live set. -/
def StateDB.getStateObject (s : StateDB) (addr : Addr) : Option StateObject × StateDB :=
  match lookupA s.stateObjects addr with
  | some obj => if obj.deleted then (none, s) else (some obj, s)
  | none =>
    match lookupA s.trie.slots addr with
    | some (.stored data) =>
      let obj := newStateObject addr data
      (some obj, s.setStateObject obj)
    | some .corrupt => (none, s)
    | none => (none, s.setError (lookupA s.trie.getErr addr))

/-- `Exist`: a state object is present (suicided ones included). -/
def StateDB.exist (s : StateDB) (addr : Addr) : Bool × StateDB :=
  let (o, s') := s.getStateObject addr
  (o.isSome, s')

/-- `GetBalance`: the account balance, or 0 when absent. -/
def StateDB.getBalance (s : StateDB) (addr : Addr) : Int × StateDB :=
  let (o, s') := s.getStateObject addr
  match o with
  | some obj => (obj.account.balance, s')
  | none => (0, s')

/-- `GetNonce`: the account nonce, or 0 when absent. -/
def StateDB.getNonce (s : StateDB) (addr : Addr) : Nat × StateDB :=
  let (o, s') := s.getStateObject addr
  match o with
  | some obj => (obj.account.nonce, s')
  | none => (0, s')

/-- `HasSuicided`: the `suicided` flag of the live object, false when absent. -/
def StateDB.hasSuicided (s : StateDB) (addr : Addr) : Bool × StateDB :=
  let (o, s') := s.getStateObject addr
  match o with
  | some obj => (obj.suicided, s')
  | none => (false, s')

/-- `AddPreimage`: record a SHA3 preimage; only on first sight of the hash is
the journal appended and (a copy of) the bytes stored. -/
def StateDB.addPreimage (s : StateDB) (h : Hash) (preimage : Bytes) : StateDB :=
  match lookupA s.preimages h with
  | some _ => s
  | none =>
    { s with journal := s.journal.append (.addPreimageChange h),
             preimages := insertA s.preimages h preimage }

/-- `AddRefund`: journal the prior counter, then add. -/
def StateDB.addRefund (s : StateDB) (gas : Nat) : StateDB :=
  { s with journal := s.journal.append (.refundChange s.refund),
           refund := s.refund + gas }

/-- `AddLog`: journal, stamp (stamping is invisible on the opaque log model),
append to the current transaction's log list, bump `logSize`. -/
def StateDB.addLog (s : StateDB) (l : LogRec) : StateDB :=
  { s with journal := s.journal.append (.addLogChange s.thash),
           logs := insertA s.logs s.thash (((lookupA s.logs s.thash).getD []) ++ [l]),
           logSize := s.logSize + 1 }

/-- `Suicide`: nothing happens on a missing object; otherwise journal the
previous flag and balance, mark the object suicided and zero its balance. -/
def StateDB.suicide (s : StateDB) (addr : Addr) : Bool × StateDB :=
  let (o, s₁) := s.getStateObject addr
  match o with
  | none => (false, s₁)
  | some obj =>
    let j₂ := s₁.journal.append (.suicideChange addr obj.suicided obj.account.balance)
    let s₂ := { s₁ with journal := j₂ }
    let obj' := { obj with suicided := true,
                           account := { obj.account with balance := 0 } }
    (true, { s₂ with stateObjects := insertA s₂.stateObjects addr obj' })

/-- The zero account `createObject` starts from: zero balance, zero nonce,
empty code, stamped with the current time. -/
def zeroAccount (addr : Addr) (now : Nat) : Account :=
  { address := addr, balance := 0, nonce := 0, codeHash := emptyCodeHash,
    storageRoot := emptyStateRoot, created := now, updated := now }

/-- `createObject`: build a zero account stamped with the current time; fetch
any prior live object; when none exists, consult the external Badger account
store and adopt its record if found; journal a reset or create delta; install
the fresh object. -/
def StateDB.createObject (s : StateDB) (now : Nat) (addr : Addr) :
    StateObject × Option StateObject × StateDB :=
  let account0 : Account := zeroAccount addr now
  let (prev, s₁) := s.getStateObject addr
  let account : Account :=
    match prev with
    | none => (s.db.badger addr).getD account0
    | some _ => account0
  let newobj := newStateObject addr account
  let s₂ :=
    match prev with
    | none => { s₁ with journal := s₁.journal.append (.createObjectChange addr) }
    | some p => { s₁ with journal := s₁.journal.append (.resetObjectChange p) }
  (newobj, prev, s₂.setStateObject newobj)

/-- `CreateAccount`: create the object; when a prior object existed, carry its
balance into the new object (via the non-journaling internal setter). -/
def StateDB.createAccount (s : StateDB) (now : Nat) (addr : Addr) : StateDB :=
  let (newobj, prev, s') := s.createObject now addr
  match prev with
  | none => s'
  | some p =>
    let carried := { newobj with account := { newobj.account with balance := p.account.balance } }
    { s' with stateObjects := insertA s'.stateObjects addr carried }

/-- `GetOrNewStateObject`: the live object, or a freshly created one. -/
def StateDB.getOrNewStateObject (s : StateDB) (now : Nat) (addr : Addr) :
    StateObject × StateDB :=
  let (o, s₁) := s.getStateObject addr
  match o with
  | some obj =>
    if obj.deleted then
      let (n, _, s₂) := s₁.createObject now addr
      (n, s₂)
    else (obj, s₁)
  | none =>
    let (n, _, s₂) := s₁.createObject now addr
    (n, s₂)

/-- `SetBalance`: materialize the object, journal the prior balance, set. -/
def StateDB.setBalance (s : StateDB) (now : Nat) (addr : Addr) (amount : Int) : StateDB :=
  let (obj, s₁) := s.getOrNewStateObject now addr
  let j₂ := s₁.journal.append (.balanceChange addr obj.account.balance)
  let obj' := { obj with account := { obj.account with balance := amount } }
  { s₁ with journal := j₂, stateObjects := insertA s₁.stateObjects addr obj' }

/-- `SetNonce`: materialize the object, journal the prior nonce, set. -/
def StateDB.setNonce (s : StateDB) (now : Nat) (addr : Addr) (n : Nat) : StateDB :=
  let (obj, s₁) := s.getOrNewStateObject now addr
  let j₂ := s₁.journal.append (.nonceChange addr obj.account.nonce)
  let obj' := { obj with account := { obj.account with nonce := n } }
  { s₁ with journal := j₂, stateObjects := insertA s₁.stateObjects addr obj' }

/-- `Snapshot`: hand out `nextRevisionId`, bump it, and record the pair of id
and current journal length on `validRevisions`. -/
def StateDB.snapshot (s : StateDB) : Nat × StateDB :=
  let id := s.nextRevisionId
  (id, { s with nextRevisionId := s.nextRevisionId + 1,
                validRevisions := s.validRevisions ++ [⟨id, s.journal.length⟩] })

/-- Modelled from the spec (§4.1): the undo action of one delta, a match over
the closed sum.  Object-level restores locate the object by the recorded
address and rewrite it in place. -/
def StateDB.undoEntry (s : StateDB) (e : JournalEntry) : StateDB :=
  match e with
  | .createObjectChange a => { s with stateObjects := eraseA s.stateObjects a }
  | .resetObjectChange prev =>
    { s with stateObjects := insertA s.stateObjects prev.account.address prev }
  | .suicideChange a prev prevbalance =>
    match lookupA s.stateObjects a with
    | none => s
    | some obj =>
      let obj' := { obj with suicided := prev,
                             account := { obj.account with balance := prevbalance } }
      { s with stateObjects := insertA s.stateObjects a obj' }
  | .balanceChange a prev =>
    match lookupA s.stateObjects a with
    | none => s
    | some obj =>
      let obj' := { obj with account := { obj.account with balance := prev } }
      { s with stateObjects := insertA s.stateObjects a obj' }
  | .nonceChange a prev =>
    match lookupA s.stateObjects a with
    | none => s
    | some obj =>
      let obj' := { obj with account := { obj.account with nonce := prev } }
      { s with stateObjects := insertA s.stateObjects a obj' }
  | .storageChange a key prevalue =>
    match lookupA s.stateObjects a with
    | none => s
    | some obj =>
      let obj' := { obj with cachedStorage := insertA obj.cachedStorage key prevalue }
      { s with stateObjects := insertA s.stateObjects a obj' }
  | .codeChange a prevhash prevcode =>
    match lookupA s.stateObjects a with
    | none => s
    | some obj =>
      let obj' := { obj with code := some prevcode,
                             account := { obj.account with codeHash := prevhash } }
      { s with stateObjects := insertA s.stateObjects a obj' }
  | .refundChange prev => { s with refund := prev }
  | .addLogChange txhash =>
    let l := (lookupA s.logs txhash).getD []
    { s with logs := insertA s.logs txhash l.dropLast, logSize := s.logSize - 1 }
  | .addPreimageChange h => { s with preimages := eraseA s.preimages h }
  | .touchChange a prev =>
    match lookupA s.stateObjects a with
    | none => s
    | some obj =>
      { s with stateObjects := insertA s.stateObjects a { obj with touched := prev } }

/-- One reverted delta: undo it and decrement its carried address's dirties
refcount. -/
def revertStep (st : StateDB) (e : JournalEntry) : StateDB :=
  let st' := st.undoEntry e
  match e.dirtiedAddress with
  | some a =>
    { st' with journal := { st'.journal with dirties := st'.journal.dirties.erase a } }
  | none => st'

/-- Modelled from the spec (§4.2): `journal.revert(state, snapshot)` — undo
the deltas above `snap` from the tail down, decrementing each carried
address's dirties refcount, then truncate the entry list at `snap`. -/
def StateDB.journalRevert (s : StateDB) (snap : Nat) : StateDB :=
  let s' := ((s.journal.entries.drop snap).reverse).foldl revertStep s
  { s' with journal := { s'.journal with entries := s'.journal.entries.take snap } }

/-- The loop of Go's `sort.Search`: binary search for the least index in
`[lo, hi)` satisfying `p`, returning `hi` when none does (assuming `p` is
monotone on the range). -/
def searchLoop (p : Nat → Bool) (lo hi : Nat) : Nat :=
  if h : lo < hi then
    let m := (lo + hi) / 2
    if p m then searchLoop p lo m else searchLoop p (m + 1) hi
  else lo
termination_by hi - lo
decreasing_by
  · omega
  · omega

/-- `RevertToSnapshot`: binary-search `validRevisions` for the id; an absent
id is fatal, modelled as `none`; otherwise revert the journal to the captured
length and truncate `validRevisions` at the found index. -/
def StateDB.revertToSnapshot (s : StateDB) (revid : Nat) : Option StateDB :=
  let n := s.validRevisions.length
  let idx := searchLoop (fun i => revid ≤ ((s.validRevisions.getD i ⟨0, 0⟩).id)) 0 n
  if idx = n ∨ (s.validRevisions.getD idx ⟨0, 0⟩).id ≠ revid then none
  else
    let snap := (s.validRevisions.getD idx ⟨0, 0⟩).journalIndex
    let s' := s.journalRevert snap
    some { s' with validRevisions := s'.validRevisions.take idx }

/-- `clearJournalAndRefund`: fresh journal, empty `validRevisions`, zero
refund. -/
def StateDB.clearJournalAndRefund (s : StateDB) : StateDB :=
  { s with journal := newJournal, validRevisions := [], refund := 0 }

/-- Modelled from the spec (§4.3): `updateTrie` — flush `dirtyStorage` into
the storage trie (zero values delete), then clear `dirtyStorage`. -/
def StateObject.updateTrieObj (o : StateObject) : StateObject :=
  let st' := o.dirtyStorage.foldl
    (fun st kv => if kv.2 = 0 then eraseA st kv.1 else insertA st kv.1 kv.2) o.storage
  { o with storage := st', dirtyStorage := [] }

/-- Modelled from the spec (§4.3): `updateRoot` — `updateTrie` then record
the storage trie's hash as the account's storage root. -/
def StateObject.updateRootObj (db : Database) (o : StateObject) : StateObject :=
  let o' := o.updateTrieObj
  { o' with account := { o'.account with storageRoot := db.storageHash o'.storage } }

/-- Modelled from the spec (§4.3): `CommitTrie` — `updateTrie` then commit
the storage trie; storage commits are infallible in this model (no claim
concerns storage-trie write failures). -/
def StateObject.commitTrieObj (db : Database) (o : StateObject) : StateObject :=
  StateObject.updateRootObj db o

/-- `updateStateObject`: write the (encoded) account into the account trie
under the address recorded in the object. -/
def StateDB.updateStateObject (s : StateDB) (o : StateObject) : StateDB :=
  { s with trie := { s.trie with
      slots := insertA s.trie.slots o.account.address (.stored o.account) } }

/-- `deleteStateObject`: flag the object `deleted` in the live set (it was
found under key `addr`) and delete its address from the account trie. -/
def StateDB.deleteStateObject (s : StateDB) (addr : Addr) (o : StateObject) : StateDB :=
  { s with stateObjects := insertA s.stateObjects addr { o with deleted := true },
           trie := { s.trie with slots := eraseA s.trie.slots o.account.address } }

/-- One iteration of the `Finalise` loop for a dirty address: skip when no
live object exists (the ripeMD edge case); delete suicided or
to-be-pruned-empty objects; otherwise flush storage and write the account;
finally mark the address dirty. -/
def StateDB.finaliseStep (de : Bool) (s : StateDB) (addr : Addr) : StateDB :=
  match lookupA s.stateObjects addr with
  | none => s
  | some obj =>
    let s' :=
      if obj.suicided || (de && obj.isEmptyAccount) then s.deleteStateObject addr obj
      else
        let obj' := StateObject.updateRootObj s.db obj
        ({ s with stateObjects := insertA s.stateObjects addr obj' }).updateStateObject obj'
    { s' with stateObjectsDirty := insertS s'.stateObjectsDirty addr }

/-- `Finalise`: process every address carried by the journal's dirties map,
then clear the journal and refund. -/
def StateDB.finalise (s : StateDB) (de : Bool) : StateDB :=
  (s.journal.dirties.dedup.foldl (StateDB.finaliseStep de) s).clearJournalAndRefund

/-- `IntermediateRoot`: `Finalise`, then the account trie's hash. -/
def StateDB.intermediateRoot (s : StateDB) (de : Bool) : Hash × StateDB :=
  let s' := s.finalise de
  (s'.db.trieHash s'.trie.slots, s')

/-- One iteration of the `Commit` loop over the live set: delete suicided
(or dirty-and-prunable-empty) objects; for dirty survivors clear the
dirty-code flag, commit storage and write the account; then drop the address
from the dirty set. -/
def StateDB.commitStep (de : Bool) (s : StateDB) (p : Addr × StateObject) : StateDB :=
  let addr := p.1
  let obj := p.2
  let isDirty := addr ∈ s.stateObjectsDirty
  let s' :=
    if obj.suicided || (isDirty && de && obj.isEmptyAccount) then
      s.deleteStateObject addr obj
    else if isDirty then
      let obj₁ := if obj.code.isSome && obj.dirtyCode then { obj with dirtyCode := false } else obj
      let obj₂ := StateObject.commitTrieObj s.db obj₁
      ({ s with stateObjects := insertA s.stateObjects addr obj₂ }).updateStateObject obj₂
    else s
  { s' with stateObjectsDirty := eraseS s'.stateObjectsDirty addr }

/-- `Commit`: fold the journal's dirties into the dirty set, walk the live
set committing each object, commit the account trie (root plus the trie's
own error — the memoized `dbErr` is never consulted), and clear the journal
and refund on the way out (the deferred call in the source). -/
def StateDB.commit (s : StateDB) (de : Bool) : (Hash × Option Err) × StateDB :=
  let s₀ := { s with stateObjectsDirty :=
    s.journal.dirties.dedup.foldl insertS s.stateObjectsDirty }
  let s₁ := s₀.stateObjects.foldl (StateDB.commitStep de) s₀
  let root := s₁.db.trieHash s₁.trie.slots
  let err := s₁.trie.commitErr
  ((root, err), s₁.clearJournalAndRefund)

/-- `Reset`: re-open the trie at `root`; on failure return the error with the
state untouched; on success install the new trie and clear every piece of
in-memory working state, the journal and the refund. -/
def StateDB.reset (s : StateDB) (root : Hash) : StateDB × Option Err :=
  match s.db.openTrie root with
  | .error e => (s, some e)
  | .ok tr =>
    let s' := { s with trie := tr, stateObjects := [], stateObjectsDirty := [],
                       thash := 0, bhash := 0, txIndex := 0, logs := [], logSize := 0,
                       preimages := [] }
    (s'.clearJournalAndRefund, none)

/-- One step of the `Copy` loop over `journal.dirties`: deep-copy the source
object into the copy and mark it dirty there (an address with no live object
is skipped). -/
def copyDirtyStep (s : StateDB) (c : StateDB) (a : Addr) : StateDB :=
  match lookupA s.stateObjects a with
  | some o => { c with stateObjects := insertA c.stateObjects a o,
                       stateObjectsDirty := insertS c.stateObjectsDirty a }
  | none => c

/-- One step of the `Copy` loop over `stateObjectsDirty`: copy the object
unless the dirties loop already did. -/
def copyDirtySetStep (s : StateDB) (c : StateDB) (a : Addr) : StateDB :=
  match lookupA c.stateObjects a with
  | some _ => c
  | none => copyDirtyStep s c a

/-- The struct literal `Copy` starts from: shared database handle, the trie
duplicated by value, empty working maps, carried refund and log size, a fresh
journal; unset Go fields take their zero values (`dbErr` nil,
`validRevisions` empty, `nextRevisionId` zero). -/
def copyBase (s : StateDB) : StateDB :=
  { db := s.db, trie := s.trie, stateObjects := [], stateObjectsDirty := [],
    dbErr := none, refund := s.refund, thash := 0, bhash := 0, txIndex := 0,
    logs := [], logSize := s.logSize, preimages := [], journal := newJournal,
    validRevisions := [], nextRevisionId := 0 }

/-- `Copy`: the base literal, then copy every object reachable from
`journal.dirties` or `stateObjectsDirty` (marking it dirty in the copy), and
duplicate logs and preimages. -/
def StateDB.copy (s : StateDB) : StateDB :=
  let afterDirties := s.journal.dirties.dedup.foldl (copyDirtyStep s) (copyBase s)
  let afterDirtySet := s.stateObjectsDirty.foldl (copyDirtySetStep s) afterDirties
  { afterDirtySet with logs := s.logs, preimages := s.preimages }

/-- `Prepare`: set the log-stamping context. -/
def StateDB.prepare (s : StateDB) (th bh : Hash) (ti : Nat) : StateDB :=
  { s with thash := th, bhash := bh, txIndex := ti }

/-- States reachable from a freshly opened StateDB by the modelled public
operations. -/
inductive Reachable : StateDB → Prop where
  | init (db : Database) (tr : Trie) : Reachable (mkState db tr)
  | getBalance {s} (a : Addr) : Reachable s → Reachable (s.getBalance a).2
  | getNonce {s} (a : Addr) : Reachable s → Reachable (s.getNonce a).2
  | exist {s} (a : Addr) : Reachable s → Reachable (s.exist a).2
  | hasSuicided {s} (a : Addr) : Reachable s → Reachable (s.hasSuicided a).2
  | addPreimage {s} (h : Hash) (p : Bytes) : Reachable s → Reachable (s.addPreimage h p)
  | addRefund {s} (g : Nat) : Reachable s → Reachable (s.addRefund g)
  | addLog {s} (l : LogRec) : Reachable s → Reachable (s.addLog l)
  | suicide {s} (a : Addr) : Reachable s → Reachable (s.suicide a).2
  | createObject {s} (now : Nat) (a : Addr) :
      Reachable s → Reachable (s.createObject now a).2.2
  | createAccount {s} (now : Nat) (a : Addr) :
      Reachable s → Reachable (s.createAccount now a)
  | setBalance {s} (now : Nat) (a : Addr) (v : Int) :
      Reachable s → Reachable (s.setBalance now a v)
  | setNonce {s} (now : Nat) (a : Addr) (n : Nat) :
      Reachable s → Reachable (s.setNonce now a n)
  | snapshot {s} : Reachable s → Reachable (s.snapshot).2
  | revertToSnapshot {s s'} (id : Nat) :
      Reachable s → s.revertToSnapshot id = some s' → Reachable s'
  | finalise {s} (de : Bool) : Reachable s → Reachable (s.finalise de)
  | intermediateRoot {s} (de : Bool) : Reachable s → Reachable (s.intermediateRoot de).2
  | commit {s} (de : Bool) : Reachable s → Reachable (s.commit de).2
  | reset {s} (root : Hash) : Reachable s → Reachable (s.reset root).1
  | copy {s} : Reachable s → Reachable s.copy
  | prepare {s} (th bh : Hash) (ti : Nat) : Reachable s → Reachable (s.prepare th bh ti)

/-- The revision-stack ordering invariant actually maintained by the code:
ids strictly increase along `validRevisions` while the captured journal
lengths only weakly increase. -/
def RevisionsOrdered (s : StateDB) : Prop :=
  List.Pairwise (fun a b => a.id < b.id ∧ a.journalIndex ≤ b.journalIndex) s.validRevisions

/-- Every recorded revision id is below `nextRevisionId` and every captured
journal length is within the current journal. -/
def RevisionsBounded (s : StateDB) : Prop :=
  ∀ r ∈ s.validRevisions, r.id < s.nextRevisionId ∧ r.journalIndex ≤ s.journal.entries.length

/-- The combined revision-stack invariant. -/
def RevInv (s : StateDB) : Prop := RevisionsOrdered s ∧ RevisionsBounded s

/-- Every live object is keyed by the address recorded in its account — true
of every state the code builds, since `setStateObject` keys objects by their
own account address. -/
def WFObjects (s : StateDB) : Prop :=
  ∀ p ∈ s.stateObjects, (Prod.snd p).account.address = p.1

/-- Fixture: a stored account at address 4 with balance 10 and nonce 1. -/
def fxAcct : Account :=
  { address := 4, balance := 10, nonce := 1, codeHash := 0, storageRoot := 0,
    created := 0, updated := 0 }

/-- Fixture: an account the Badger store hands out for address 1. -/
def fxBadgerAcct : Account :=
  { address := 1, balance := 5, nonce := 0, codeHash := 0, storageRoot := 0,
    created := 0, updated := 0 }

/-- Fixture: a trie holding `fxAcct` at address 4; reads of address 5 fail
with error 7; its commit succeeds. -/
def fxTrie : Trie :=
  { slots := [(4, .stored fxAcct)], getErr := [(5, 7)], commitErr := none }

/-- Fixture: an empty trie with error-free reads. -/
def fxTrieEmpty : Trie := { slots := [], getErr := [], commitErr := none }

/-- Fixture database: opening root 99 fails with error 42, every other root
yields `fxTrie`; the Badger store is empty; hashes are the structure size. -/
def fxDb : Database :=
  { openTrie := fun r => if r = 99 then .error 42 else .ok fxTrie,
    badger := fun _ => none,
    storageHash := fun l => l.length,
    trieHash := fun l => l.length }

/-- Fixture database whose Badger store holds `fxBadgerAcct` at address 1. -/
def fxDbBadger : Database :=
  { fxDb with badger := fun a => if a = 1 then some fxBadgerAcct else none }

/-- Fixture state over `fxDb` and `fxTrie`. -/
def fxS : StateDB := mkState fxDb fxTrie

/-- Fixture state over the Badger-backed database and the empty trie. -/
def fxSB : StateDB := mkState fxDbBadger fxTrieEmpty

/-- Fixture: `fxS` after suiciding the stored account at address 4 — a state
with one live (dirty, suicided) object and one journal delta. -/
def fxSuicided : StateDB := (fxS.suicide 4).2

/-- Fixture: `fxS` after two snapshots — `validRevisions = [(0,0), (1,0)]`. -/
def fxS2 : StateDB := ((fxS.snapshot).2.snapshot).2


theorem find_filter_ne {α : Type} (l : List (Nat × α)) (k k' : Nat) (h : k' ≠ k) :
    (l.filter (fun p => p.1 != k)).find? (fun p => p.1 == k')
      = l.find? (fun p => p.1 == k') := by
  induction l with
  | nil => rfl
  | cons p l ih =>
    by_cases hp : p.1 = k
    · have h1 : (p.1 != k) = false := by simp [hp]
      have h2 : (p.1 == k') = false := by simp [hp, Ne.symm h]
      rw [List.filter_cons, h1]
      simp only [Bool.false_eq_true, if_false, List.find?_cons, h2, ih]
    · have h1 : (p.1 != k) = true := by simp [hp]
      rw [List.filter_cons, h1]
      by_cases hq : p.1 = k'
      · have h2 : (p.1 == k') = true := by simp [hq]
        simp only [if_true, List.find?_cons, h2]
      · have h2 : (p.1 == k') = false := by simp [hq]
        simp only [if_true, List.find?_cons, h2, ih]

theorem find_filter_self {α : Type} (l : List (Nat × α)) (k : Nat) :
    (l.filter (fun p => p.1 != k)).find? (fun p => p.1 == k) = none := by
  induction l with
  | nil => rfl
  | cons p l ih =>
    by_cases hp : p.1 = k
    · have h1 : (p.1 != k) = false := by simp [hp]
      rw [List.filter_cons, h1]
      simp [ih]
    · have h1 : (p.1 != k) = true := by simp [hp]
      have h2 : (p.1 == k) = false := by simp [hp]
      rw [List.filter_cons, h1]
      simp only [if_true, List.find?_cons, h2, ih]

theorem lookupA_insertA {α : Type} (l : List (Nat × α)) (k : Nat) (v : α) (k' : Nat) :
    lookupA (insertA l k v) k' = if k' = k then some v else lookupA l k' := by
  by_cases h : k' = k
  · subst h
    simp [lookupA, insertA, List.find?_cons]
  · have hk : (k == k') = false := by simp [Ne.symm h]
    unfold lookupA insertA
    rw [if_neg h, List.find?_cons]
    simp only [hk]
    rw [find_filter_ne l k k' h]

theorem lookupA_eraseA {α : Type} (l : List (Nat × α)) (k k' : Nat) :
    lookupA (eraseA l k) k' = if k' = k then none else lookupA l k' := by
  by_cases h : k' = k
  · subst h
    simp [lookupA, eraseA, find_filter_self]
  · unfold lookupA eraseA
    rw [find_filter_ne l k k' h, if_neg h]

theorem mem_insertS (l : List Addr) (a b : Addr) :
    b ∈ insertS l a ↔ b = a ∨ b ∈ l := by
  unfold insertS
  split
  · rename_i h
    constructor
    · exact fun hb => Or.inr hb
    · rintro (rfl | hb)
      · exact h
      · exact hb
  · simp [List.mem_cons]

/-- `setError` can only change `dbErr`; every other field is untouched. -/
theorem setError_frame (s : StateDB) (e : Option Err) :
    (s.setError e).stateObjects = s.stateObjects
    ∧ (s.setError e).stateObjectsDirty = s.stateObjectsDirty
    ∧ (s.setError e).journal = s.journal
    ∧ (s.setError e).refund = s.refund
    ∧ (s.setError e).logs = s.logs
    ∧ (s.setError e).logSize = s.logSize
    ∧ (s.setError e).preimages = s.preimages
    ∧ (s.setError e).trie = s.trie
    ∧ (s.setError e).validRevisions = s.validRevisions
    ∧ (s.setError e).nextRevisionId = s.nextRevisionId
    ∧ (s.setError e).db = s.db
    ∧ (s.setError e).thash = s.thash
    ∧ (s.setError e).bhash = s.bhash
    ∧ (s.setError e).txIndex = s.txIndex := by
  unfold StateDB.setError
  split <;> simp

/-- Case-by-case value of `getStateObject` as a pair, for rewriting. -/
theorem getStateObject_live (s : StateDB) (a : Addr) (obj : StateObject)
    (hl : lookupA s.stateObjects a = some obj) (hd : obj.deleted = false) :
    s.getStateObject a = (some obj, s) := by
  unfold StateDB.getStateObject
  rw [hl]
  simp [hd]

theorem getStateObject_deleted (s : StateDB) (a : Addr) (obj : StateObject)
    (hl : lookupA s.stateObjects a = some obj) (hd : obj.deleted = true) :
    s.getStateObject a = (none, s) := by
  unfold StateDB.getStateObject
  rw [hl]
  simp [hd]

theorem getStateObject_load (s : StateDB) (a : Addr) (data : Account)
    (hl : lookupA s.stateObjects a = none)
    (ht : lookupA s.trie.slots a = some (.stored data)) :
    s.getStateObject a = (some (newStateObject a data), s.setStateObject (newStateObject a data)) := by
  unfold StateDB.getStateObject
  rw [hl, ht]

theorem getStateObject_corrupt (s : StateDB) (a : Addr)
    (hl : lookupA s.stateObjects a = none)
    (ht : lookupA s.trie.slots a = some .corrupt) :
    s.getStateObject a = (none, s) := by
  unfold StateDB.getStateObject
  rw [hl, ht]

theorem getStateObject_absent (s : StateDB) (a : Addr)
    (hl : lookupA s.stateObjects a = none)
    (ht : lookupA s.trie.slots a = none) :
    s.getStateObject a = (none, s.setError (lookupA s.trie.getErr a)) := by
  unfold StateDB.getStateObject
  rw [hl, ht]

/-- The state component of `getStateObject` changes at most `stateObjects`
(inserting the freshly loaded object) and `dbErr` (memoizing a read error);
every other field is untouched. -/
theorem getStateObject_frame (s : StateDB) (a : Addr) :
    (s.getStateObject a).2.journal = s.journal
    ∧ (s.getStateObject a).2.validRevisions = s.validRevisions
    ∧ (s.getStateObject a).2.nextRevisionId = s.nextRevisionId
    ∧ (s.getStateObject a).2.refund = s.refund
    ∧ (s.getStateObject a).2.stateObjectsDirty = s.stateObjectsDirty
    ∧ (s.getStateObject a).2.trie = s.trie
    ∧ (s.getStateObject a).2.logs = s.logs
    ∧ (s.getStateObject a).2.logSize = s.logSize
    ∧ (s.getStateObject a).2.preimages = s.preimages
    ∧ (s.getStateObject a).2.db = s.db
    ∧ (s.getStateObject a).2.thash = s.thash
    ∧ (s.getStateObject a).2.bhash = s.bhash
    ∧ (s.getStateObject a).2.txIndex = s.txIndex := by
  rcases hl : lookupA s.stateObjects a with _ | obj
  · rcases ht : lookupA s.trie.slots a with _ | sl
    · rw [getStateObject_absent s a hl ht]
      obtain ⟨h1, h2, h3, h4, h5, h6, h7, h8, h9, h10, h11, h12, h13, h14⟩ :=
        setError_frame s (lookupA s.trie.getErr a)
      exact ⟨h3, h9, h10, h4, h2, h8, h5, h6, h7, h11, h12, h13, h14⟩
    · rcases sl with d | _
      · rw [getStateObject_load s a d hl ht]
        simp [StateDB.setStateObject]
      · rw [getStateObject_corrupt s a hl ht]
        simp
  · by_cases hd : obj.deleted
    · rw [getStateObject_deleted s a obj hl hd]
      simp
    · rw [getStateObject_live s a obj hl (by simpa using hd)]
      simp

/-- C8: `AddPreimage(hash, preimage)` is idempotent per hash with
first-write-wins semantics: the first call for a hash stores the bytes and
appends exactly one `addPreimageChange` delta (dirtying no address); every
later call with the same hash, whatever the bytes, changes nothing. -/
theorem C8_addPreimage_first_write_wins (s : StateDB) (h : Hash) (p q : Bytes) :
    ((s.addPreimage h p).addPreimage h q = s.addPreimage h p)
    ∧ (s.addPreimage h p).preimages =
        (match lookupA s.preimages h with
          | none => insertA s.preimages h p
          | some _ => s.preimages)
    ∧ (s.addPreimage h p).journal.entries =
        (match lookupA s.preimages h with
          | none => s.journal.entries ++ [JournalEntry.addPreimageChange h]
          | some _ => s.journal.entries)
    ∧ (s.addPreimage h p).journal.dirties = s.journal.dirties := by
  rcases hl : lookupA s.preimages h with _ | v
  · have hstep : s.addPreimage h p =
        { s with journal := s.journal.append (.addPreimageChange h),
                 preimages := insertA s.preimages h p } := by
      unfold StateDB.addPreimage; rw [hl]
    have hl2 : lookupA (insertA s.preimages h p) h = some p := by
      rw [lookupA_insertA]; simp
    refine ⟨?_, by rw [hstep], by rw [hstep]; rfl, by rw [hstep]; rfl⟩
    conv_lhs => rw [hstep]
    unfold StateDB.addPreimage
    simp only [hl2]
    rw [hl]
  · have hstep : s.addPreimage h p = s := by
      unfold StateDB.addPreimage; rw [hl]
    rw [hstep]
    refine ⟨?_, rfl, rfl, rfl⟩
    unfold StateDB.addPreimage; rw [hl]

/-- C5: `Reset(root)` re-opens the trie and, on success, clears all
in-memory working state — live objects, dirty set, tx/block context, logs,
preimages — and clears the journal (length 0), refund (0) and
`validRevisions` (empty); when `OpenTrie` fails the error is returned and
the state is unchanged. -/
theorem C5_reset_clears_working_state (s : StateDB) (root : Hash) :
    s.reset root =
      (match s.db.openTrie root with
        | .ok tr =>
          ({ s with trie := tr, stateObjects := [], stateObjectsDirty := [],
                    thash := 0, bhash := 0, txIndex := 0, logs := [],
                    logSize := 0, preimages := [], journal := newJournal,
                    validRevisions := [], refund := 0 }, none)
        | .error e => (s, some e)) := by
  unfold StateDB.reset StateDB.clearJournalAndRefund
  rcases ho : s.db.openTrie root with e | tr <;> rfl

/-- C9: `Suicide(addr)` with no live object and no decodable trie entry
returns false and leaves the working set untouched: no journal delta, and
the live-object map, dirty set, trie, logs, preimages, refund and revision
stack are all unchanged (only `dbErr` may pick up a memoized read error). -/
theorem C9_suicide_absent_is_noop (s : StateDB) (addr : Addr)
    (hlive : ∀ o, lookupA s.stateObjects addr = some o → o.deleted = true)
    (htrie : ∀ sl, lookupA s.trie.slots addr = some sl → sl = TrieSlot.corrupt) :
    (s.suicide addr).1 = false
    ∧ (s.suicide addr).2.stateObjects = s.stateObjects
    ∧ (s.suicide addr).2.stateObjectsDirty = s.stateObjectsDirty
    ∧ (s.suicide addr).2.journal = s.journal
    ∧ (s.suicide addr).2.refund = s.refund
    ∧ (s.suicide addr).2.logs = s.logs
    ∧ (s.suicide addr).2.preimages = s.preimages
    ∧ (s.suicide addr).2.trie = s.trie
    ∧ (s.suicide addr).2.validRevisions = s.validRevisions := by
  have hg : (s.getStateObject addr).1 = none ∧
      ((s.getStateObject addr).2 = s ∨
       (s.getStateObject addr).2 = s.setError (lookupA s.trie.getErr addr)) := by
    rcases hl : lookupA s.stateObjects addr with _ | obj
    · rcases ht : lookupA s.trie.slots addr with _ | sl
      · rw [getStateObject_absent s addr hl ht]
        exact ⟨rfl, Or.inr rfl⟩
      · rcases sl with d | _
        · exact absurd (htrie _ ht) (by simp)
        · rw [getStateObject_corrupt s addr hl ht]
          exact ⟨rfl, Or.inl rfl⟩
    · have hd : obj.deleted = true := hlive obj hl
      rw [getStateObject_deleted s addr obj hl hd]
      exact ⟨rfl, Or.inl rfl⟩
  have hs : s.suicide addr = (false, (s.getStateObject addr).2) := by
    unfold StateDB.suicide
    rcases hp : s.getStateObject addr with ⟨o, s₁⟩
    have : o = none := by rw [← hg.1, hp]
    subst this
    rfl
  rw [hs]
  rcases hg.2 with h2 | h2 <;> rw [h2]
  · exact ⟨rfl, rfl, rfl, rfl, rfl, rfl, rfl, rfl, rfl⟩
  · obtain ⟨h1, h2', h3, h4, h5, h6, h7, h8, h9, _⟩ :=
      setError_frame s (lookupA s.trie.getErr addr)
    exact ⟨rfl, h1, h2', h3, h4, h5, h7, h8, h9⟩

/-- Witness for C9 at a concrete state: address 9 has no live object and no
trie entry in `fxS`. -/
theorem C9_witness :
    (fxS.suicide 9).1 = false
    ∧ (fxS.suicide 9).2.stateObjects = fxS.stateObjects
    ∧ (fxS.suicide 9).2.stateObjectsDirty = fxS.stateObjectsDirty
    ∧ (fxS.suicide 9).2.journal = fxS.journal
    ∧ (fxS.suicide 9).2.refund = fxS.refund
    ∧ (fxS.suicide 9).2.logs = fxS.logs
    ∧ (fxS.suicide 9).2.preimages = fxS.preimages
    ∧ (fxS.suicide 9).2.trie = fxS.trie
    ∧ (fxS.suicide 9).2.validRevisions = fxS.validRevisions :=
  C9_suicide_absent_is_noop fxS 9
    (fun o h => by simp [fxS, mkState, lookupA] at h)
    (fun sl h => by
      simp [fxS, fxTrie, mkState, lookupA, List.find?, fxAcct] at h)

/-- C1 (code evaluation): a trie read error observed during `GetBalance` is
memoized into `dbErr` without being surfaced, yet the subsequent
`Commit(true)` returns no error — the implementation never consults the
memoized `dbErr`, contradicting the documented contract that `Commit`
surfaces it. -/
theorem C1_commit_returns_nil_despite_memoized_dbErr :
    (fxS.getBalance 5).1 = 0
    ∧ (fxS.getBalance 5).2.dbErr = some 7
    ∧ ((fxS.getBalance 5).2.commit true).1.2 = none := by
  decide

/-- C2 counterexample: with no prior object and the external Badger store
holding an account of balance 5 for address 1, `createObject` installs an
object with balance 5, not the zero account the claim demands (the journal
delta is still a single `createObjectChange`). -/
theorem C2_createObject_not_zero_counterexample :
    (fxSB.createObject 0 1).2.1 = none
    ∧ (fxSB.createObject 0 1).1.account.balance = 5
    ∧ ¬ (fxSB.createObject 0 1).1.account.balance = 0
    ∧ lookupA (fxSB.createObject 0 1).2.2.stateObjects 1 = some (fxSB.createObject 0 1).1
    ∧ (fxSB.createObject 0 1).2.2.journal.entries = [JournalEntry.createObjectChange 1] := by
  decide

/-- C2 amended: `createObject(addr)` installs a live `stateObject` and
appends exactly one journal delta — a `resetObjectChange` carrying the prior
object when one was live, else a `createObjectChange` carrying `addr` — but
the fresh account starts from the zero account only when a prior object
existed or the external Badger store has no entry for `addr`; otherwise the
Badger-stored account is adopted. -/
theorem C2_createObject_amended (s : StateDB) (now : Nat) (addr : Addr) :
    (s.createObject now addr).2.1 = (s.getStateObject addr).1
    ∧ (s.createObject now addr).1 =
        newStateObject addr
          (match (s.getStateObject addr).1 with
            | none => (s.db.badger addr).getD (zeroAccount addr now)
            | some _ => zeroAccount addr now)
    ∧ lookupA (s.createObject now addr).2.2.stateObjects addr =
        some (s.createObject now addr).1
    ∧ (s.createObject now addr).2.2.journal.entries =
        (s.getStateObject addr).2.journal.entries ++
          [match (s.getStateObject addr).1 with
            | none => JournalEntry.createObjectChange addr
            | some p => JournalEntry.resetObjectChange p]
    ∧ (s.createObject now addr).1.suicided = false
    ∧ (s.createObject now addr).1.deleted = false
    ∧ (s.createObject now addr).1.code = none := by
  rcases hg : s.getStateObject addr with ⟨prev, s₁⟩
  unfold StateDB.createObject
  rw [hg]
  rcases prev with _ | p
  · simp [StateDB.setStateObject, newStateObject, Journal.append, lookupA_insertA]
  · simp [StateDB.setStateObject, newStateObject, Journal.append, lookupA_insertA]

/-- C10: `CreateAccount(addr)` over a live prior object installs a fresh
object carrying the prior balance while nonce and code restart from the
fresh-account values; with no prior object the freshly created object keeps
its initial balance untouched. -/
theorem C10_createAccount_carries_balance (s : StateDB) (now : Nat) (addr : Addr) :
    lookupA (s.createAccount now addr).stateObjects addr =
      some (match (s.getStateObject addr).1 with
        | some p =>
          { account := { address := addr, balance := p.account.balance, nonce := 0,
                         codeHash := emptyCodeHash, storageRoot := emptyStateRoot,
                         created := now, updated := now },
            code := none, dirtyCode := false, suicided := false, deleted := false,
            touched := false, cachedStorage := [], dirtyStorage := [], storage := [] }
        | none => (s.createObject now addr).1) := by
  rcases hg : s.getStateObject addr with ⟨prev, s₁⟩
  unfold StateDB.createAccount StateDB.createObject
  rw [hg]
  rcases prev with _ | p
  · simp [StateDB.setStateObject, newStateObject, lookupA_insertA]
  · simp [StateDB.setStateObject, newStateObject, zeroAccount, lookupA_insertA]

/-- The `Copy` dirties loop never touches the fields outside the working
set. -/
theorem copy_fold1_frame (s : StateDB) (L : List Addr) (c : StateDB) :
    (L.foldl (copyDirtyStep s) c).db = c.db
    ∧ (L.foldl (copyDirtyStep s) c).trie = c.trie
    ∧ (L.foldl (copyDirtyStep s) c).journal = c.journal
    ∧ (L.foldl (copyDirtyStep s) c).validRevisions = c.validRevisions
    ∧ (L.foldl (copyDirtyStep s) c).refund = c.refund
    ∧ (L.foldl (copyDirtyStep s) c).logSize = c.logSize := by
  induction L generalizing c with
  | nil => exact ⟨rfl, rfl, rfl, rfl, rfl, rfl⟩
  | cons b L ih =>
    have hstep : (copyDirtyStep s c b).db = c.db
        ∧ (copyDirtyStep s c b).trie = c.trie
        ∧ (copyDirtyStep s c b).journal = c.journal
        ∧ (copyDirtyStep s c b).validRevisions = c.validRevisions
        ∧ (copyDirtyStep s c b).refund = c.refund
        ∧ (copyDirtyStep s c b).logSize = c.logSize := by
      unfold copyDirtyStep
      rcases lookupA s.stateObjects b with _ | o <;> simp
    obtain ⟨h1, h2, h3, h4, h5, h6⟩ := ih (copyDirtyStep s c b)
    obtain ⟨g1, g2, g3, g4, g5, g6⟩ := hstep
    exact ⟨h1.trans g1, h2.trans g2, h3.trans g3, h4.trans g4, h5.trans g5, h6.trans g6⟩

/-- Same frame for the second `Copy` loop. -/
theorem copy_fold2_frame (s : StateDB) (M : List Addr) (c : StateDB) :
    (M.foldl (copyDirtySetStep s) c).db = c.db
    ∧ (M.foldl (copyDirtySetStep s) c).trie = c.trie
    ∧ (M.foldl (copyDirtySetStep s) c).journal = c.journal
    ∧ (M.foldl (copyDirtySetStep s) c).validRevisions = c.validRevisions
    ∧ (M.foldl (copyDirtySetStep s) c).refund = c.refund
    ∧ (M.foldl (copyDirtySetStep s) c).logSize = c.logSize := by
  induction M generalizing c with
  | nil => exact ⟨rfl, rfl, rfl, rfl, rfl, rfl⟩
  | cons b M ih =>
    have hstep : (copyDirtySetStep s c b).db = c.db
        ∧ (copyDirtySetStep s c b).trie = c.trie
        ∧ (copyDirtySetStep s c b).journal = c.journal
        ∧ (copyDirtySetStep s c b).validRevisions = c.validRevisions
        ∧ (copyDirtySetStep s c b).refund = c.refund
        ∧ (copyDirtySetStep s c b).logSize = c.logSize := by
      unfold copyDirtySetStep copyDirtyStep
      rcases lookupA c.stateObjects b with _ | o
      · rcases lookupA s.stateObjects b with _ | o <;> simp
      · simp
    obtain ⟨h1, h2, h3, h4, h5, h6⟩ := ih (copyDirtySetStep s c b)
    obtain ⟨g1, g2, g3, g4, g5, g6⟩ := hstep
    exact ⟨h1.trans g1, h2.trans g2, h3.trans g3, h4.trans g4, h5.trans g5, h6.trans g6⟩

/-- What the `Copy` dirties loop leaves in the copy's working set. -/
theorem copy_fold1_lookup (s : StateDB) (L : List Addr) (c : StateDB) (a : Addr) :
    lookupA (L.foldl (copyDirtyStep s) c).stateObjects a =
      (if a ∈ L ∧ (lookupA s.stateObjects a).isSome
       then lookupA s.stateObjects a else lookupA c.stateObjects a) := by
  induction L generalizing c with
  | nil => simp
  | cons b L ih =>
    rw [List.foldl_cons, ih]
    by_cases hb : a = b
    · subst hb
      rcases hsa : lookupA s.stateObjects a with _ | o
      · have hc : copyDirtyStep s c a = c := by unfold copyDirtyStep; rw [hsa]
        rw [hc]
        simp [hsa]
      · have hc : copyDirtyStep s c a =
            { c with stateObjects := insertA c.stateObjects a o,
                     stateObjectsDirty := insertS c.stateObjectsDirty a } := by
          unfold copyDirtyStep; rw [hsa]
        rw [hc]
        simp [hsa, lookupA_insertA]
    · have hc : lookupA (copyDirtyStep s c b).stateObjects a = lookupA c.stateObjects a := by
        unfold copyDirtyStep
        rcases lookupA s.stateObjects b with _ | o
        · rfl
        · simp [lookupA_insertA, hb]
      rw [hc]
      by_cases hL : a ∈ L <;> simp [hL, hb]

/-- Which addresses the `Copy` dirties loop marks dirty. -/
theorem copy_fold1_dirty (s : StateDB) (L : List Addr) (c : StateDB) (a : Addr) :
    (a ∈ (L.foldl (copyDirtyStep s) c).stateObjectsDirty) ↔
      ((a ∈ L ∧ (lookupA s.stateObjects a).isSome) ∨ a ∈ c.stateObjectsDirty) := by
  induction L generalizing c with
  | nil => simp
  | cons b L ih =>
    rw [List.foldl_cons, ih]
    by_cases hb : a = b
    · subst hb
      rcases hsa : lookupA s.stateObjects a with _ | o
      · have hc : copyDirtyStep s c a = c := by unfold copyDirtyStep; rw [hsa]
        rw [hc]
        simp [hsa]
      · have hc : copyDirtyStep s c a =
            { c with stateObjects := insertA c.stateObjects a o,
                     stateObjectsDirty := insertS c.stateObjectsDirty a } := by
          unfold copyDirtyStep; rw [hsa]
        rw [hc]
        simp [hsa, mem_insertS]
    · have hc : (copyDirtyStep s c b).stateObjectsDirty = insertS c.stateObjectsDirty b
          ∨ (copyDirtyStep s c b).stateObjectsDirty = c.stateObjectsDirty := by
        unfold copyDirtyStep
        rcases lookupA s.stateObjects b with _ | o
        · exact Or.inr rfl
        · exact Or.inl rfl
      rcases hc with hc | hc <;> rw [hc] <;> simp [mem_insertS, hb]

/-- What the second `Copy` loop leaves in the copy's working set: present
entries are kept, and addresses of `stateObjectsDirty` absent from the copy
are filled in from the source. -/
theorem copy_fold2_lookup (s : StateDB) (M : List Addr) (c : StateDB) (a : Addr) :
    lookupA (M.foldl (copyDirtySetStep s) c).stateObjects a =
      (match lookupA c.stateObjects a with
        | some o => some o
        | none =>
          if a ∈ M ∧ (lookupA s.stateObjects a).isSome
          then lookupA s.stateObjects a else none) := by
  induction M generalizing c with
  | nil => rcases h : lookupA c.stateObjects a with _ | o <;> simp [h]
  | cons b M ih =>
    rw [List.foldl_cons, ih]
    rcases hca : lookupA c.stateObjects a with _ | o
    · by_cases hb : a = b
      · subst hb
        rcases hsa : lookupA s.stateObjects a with _ | o
        · have hc : copyDirtySetStep s c a = c := by
            unfold copyDirtySetStep copyDirtyStep; rw [hca, hsa]
          rw [hc, hca]
          simp [hsa]
        · have hc : copyDirtySetStep s c a =
              { c with stateObjects := insertA c.stateObjects a o,
                       stateObjectsDirty := insertS c.stateObjectsDirty a } := by
            unfold copyDirtySetStep copyDirtyStep; rw [hca, hsa]
          rw [hc]
          simp [lookupA_insertA, hsa]
      · have hc : lookupA (copyDirtySetStep s c b).stateObjects a
            = lookupA c.stateObjects a := by
          unfold copyDirtySetStep copyDirtyStep
          rcases lookupA c.stateObjects b with _ | ob
          · rcases lookupA s.stateObjects b with _ | ob
            · rfl
            · simp [lookupA_insertA, hb]
          · rfl
        rw [hc, hca]
        simp [hb]
    · have hc : lookupA (copyDirtySetStep s c b).stateObjects a = some o := by
        by_cases hb : a = b
        · subst hb
          have hstep : copyDirtySetStep s c a = c := by
            unfold copyDirtySetStep; rw [hca]
          rw [hstep]; exact hca
        · unfold copyDirtySetStep copyDirtyStep
          rcases lookupA c.stateObjects b with _ | ob
          · rcases lookupA s.stateObjects b with _ | ob
            · exact hca
            · simp [lookupA_insertA, hb, hca]
          · exact hca
      rw [hc]

/-- Which addresses the second `Copy` loop marks dirty. -/
theorem copy_fold2_dirty (s : StateDB) (M : List Addr) (c : StateDB) (a : Addr) :
    (a ∈ (M.foldl (copyDirtySetStep s) c).stateObjectsDirty) ↔
      ((a ∈ M ∧ (lookupA s.stateObjects a).isSome ∧ lookupA c.stateObjects a = none)
        ∨ a ∈ c.stateObjectsDirty) := by
  induction M generalizing c with
  | nil => simp
  | cons b M ih =>
    rw [List.foldl_cons, ih]
    by_cases hb : a = b
    · subst hb
      rcases hca : lookupA c.stateObjects a with _ | o
      · rcases hsa : lookupA s.stateObjects a with _ | o
        · have hc : copyDirtySetStep s c a = c := by
            unfold copyDirtySetStep copyDirtyStep; rw [hca, hsa]
          rw [hc]
          simp [hca, hsa]
        · have hc : copyDirtySetStep s c a =
              { c with stateObjects := insertA c.stateObjects a o,
                       stateObjectsDirty := insertS c.stateObjectsDirty a } := by
            unfold copyDirtySetStep copyDirtyStep; rw [hca, hsa]
          rw [hc]
          simp [lookupA_insertA, hsa, mem_insertS, hca]
      · have hc : copyDirtySetStep s c a = c := by
          unfold copyDirtySetStep; rw [hca]
        rw [hc]
        simp [hca]
    · have hlk : lookupA (copyDirtySetStep s c b).stateObjects a
          = lookupA c.stateObjects a := by
        unfold copyDirtySetStep copyDirtyStep
        rcases lookupA c.stateObjects b with _ | ob
        · rcases lookupA s.stateObjects b with _ | ob
          · rfl
          · simp [lookupA_insertA, hb]
        · rfl
      have hdt : (copyDirtySetStep s c b).stateObjectsDirty = insertS c.stateObjectsDirty b
          ∨ (copyDirtySetStep s c b).stateObjectsDirty = c.stateObjectsDirty := by
        unfold copyDirtySetStep copyDirtyStep
        rcases lookupA c.stateObjects b with _ | ob
        · rcases lookupA s.stateObjects b with _ | ob
          · exact Or.inr rfl
          · exact Or.inl rfl
        · exact Or.inr rfl
      rw [hlk]
      rcases hdt with hdt | hdt <;> rw [hdt] <;> simp [mem_insertS, hb]

/-- C7: `Copy()` shares the database handle, starts with an empty journal and
empty `validRevisions`, carries refund and log size over, duplicates logs and
preimages, and its working set holds exactly the objects whose address lies
in `journal.dirties` or `stateObjectsDirty` (each present object copied by
value and marked dirty in the copy); being a freshly built value, the copy is
untouched by later mutation of the source and vice versa. -/
theorem C7_copy_deep_independent (s : StateDB) :
    s.copy.db = s.db
    ∧ s.copy.trie = s.trie
    ∧ s.copy.journal = newJournal
    ∧ s.copy.validRevisions = []
    ∧ s.copy.refund = s.refund
    ∧ s.copy.logSize = s.logSize
    ∧ s.copy.logs = s.logs
    ∧ s.copy.preimages = s.preimages
    ∧ (∀ a o, (a ∈ s.journal.dirties ∨ a ∈ s.stateObjectsDirty) →
        lookupA s.stateObjects a = some o →
        lookupA s.copy.stateObjects a = some o ∧ a ∈ s.copy.stateObjectsDirty)
    ∧ (∀ a o, lookupA s.copy.stateObjects a = some o →
        (a ∈ s.journal.dirties ∨ a ∈ s.stateObjectsDirty)
        ∧ lookupA s.stateObjects a = some o) := by
  have hrfl : s.copy =
      { s.stateObjectsDirty.foldl (copyDirtySetStep s)
          (s.journal.dirties.dedup.foldl (copyDirtyStep s) (copyBase s)) with
        logs := s.logs, preimages := s.preimages } := rfl
  obtain ⟨f1db, f1tr, f1j, f1v, f1r, f1ls⟩ :=
    copy_fold1_frame s s.journal.dirties.dedup (copyBase s)
  obtain ⟨f2db, f2tr, f2j, f2v, f2r, f2ls⟩ :=
    copy_fold2_frame s s.stateObjectsDirty
      (s.journal.dirties.dedup.foldl (copyDirtyStep s) (copyBase s))
  have hbase0 : ∀ a, lookupA (copyBase s).stateObjects a = none := fun a => rfl
  have hf1 : ∀ a,
      lookupA (s.journal.dirties.dedup.foldl (copyDirtyStep s) (copyBase s)).stateObjects a =
        (if a ∈ s.journal.dirties.dedup ∧ (lookupA s.stateObjects a).isSome
         then lookupA s.stateObjects a else none) := by
    intro a
    rw [copy_fold1_lookup, hbase0]
  have hf1d : ∀ a,
      (a ∈ (s.journal.dirties.dedup.foldl (copyDirtyStep s) (copyBase s)).stateObjectsDirty) ↔
        (a ∈ s.journal.dirties.dedup ∧ (lookupA s.stateObjects a).isSome) := by
    intro a
    rw [copy_fold1_dirty]
    simp [copyBase]
  refine ⟨?_, ?_, ?_, ?_, ?_, ?_, ?_, ?_, ?_, ?_⟩
  · rw [hrfl]; exact f2db.trans f1db
  · rw [hrfl]; exact f2tr.trans f1tr
  · rw [hrfl]; exact f2j.trans f1j
  · rw [hrfl]; exact f2v.trans f1v
  · rw [hrfl]; exact f2r.trans f1r
  · rw [hrfl]; exact f2ls.trans f1ls
  · rw [hrfl]
  · rw [hrfl]
  · intro a o hmem hlk
    have hcs : s.copy.stateObjects =
        (s.stateObjectsDirty.foldl (copyDirtySetStep s)
          (s.journal.dirties.dedup.foldl (copyDirtyStep s) (copyBase s))).stateObjects := by
      rw [hrfl]
    have hcd : s.copy.stateObjectsDirty =
        (s.stateObjectsDirty.foldl (copyDirtySetStep s)
          (s.journal.dirties.dedup.foldl (copyDirtyStep s) (copyBase s))).stateObjectsDirty := by
      rw [hrfl]
    by_cases hd : a ∈ s.journal.dirties.dedup
    · have h1 : lookupA (s.journal.dirties.dedup.foldl (copyDirtyStep s)
          (copyBase s)).stateObjects a = some o := by
        rw [hf1 a, if_pos ⟨hd, by rw [hlk]; rfl⟩, hlk]
      constructor
      · rw [hcs, copy_fold2_lookup, h1]
      · rw [hcd]
        rw [copy_fold2_dirty]
        exact Or.inr ((hf1d a).mpr ⟨hd, by rw [hlk]; rfl⟩)
    · have hmem' : a ∈ s.stateObjectsDirty := by
        rcases hmem with hm | hm
        · exact absurd (List.mem_dedup.mpr hm) hd
        · exact hm
      have h1 : lookupA (s.journal.dirties.dedup.foldl (copyDirtyStep s)
          (copyBase s)).stateObjects a = none := by
        rw [hf1 a, if_neg]
        intro hc
        exact hd hc.1
      constructor
      · rw [hcs, copy_fold2_lookup, h1]
        simp [hmem', hlk]
      · rw [hcd, copy_fold2_dirty]
        exact Or.inl ⟨hmem', by rw [hlk]; rfl, h1⟩
  · intro a o hlk
    have hcs : s.copy.stateObjects =
        (s.stateObjectsDirty.foldl (copyDirtySetStep s)
          (s.journal.dirties.dedup.foldl (copyDirtyStep s) (copyBase s))).stateObjects := by
      rw [hrfl]
    rw [hcs, copy_fold2_lookup] at hlk
    rcases h1 : lookupA (s.journal.dirties.dedup.foldl (copyDirtyStep s)
        (copyBase s)).stateObjects a with _ | o'
    · rw [h1] at hlk
      simp only [] at hlk
      by_cases hcnd : a ∈ s.stateObjectsDirty ∧ (lookupA s.stateObjects a).isSome
      · rw [if_pos hcnd] at hlk
        exact ⟨Or.inr hcnd.1, hlk⟩
      · rw [if_neg hcnd] at hlk
        exact absurd hlk (by simp)
    · rw [h1] at hlk
      simp only [] at hlk
      rw [hf1 a] at h1
      by_cases hcnd : a ∈ s.journal.dirties.dedup ∧ (lookupA s.stateObjects a).isSome
      · rw [if_pos hcnd] at h1
        refine ⟨Or.inl (List.mem_dedup.mp hcnd.1), ?_⟩
        rw [h1, hlk]
      · rw [if_neg hcnd] at h1
        exact absurd h1 (by simp)

/-- Witness for C7 at the concrete post-suicide state: the dirtied object at
address 4 is present in the copy (same value) and marked dirty there, and
the copy starts with a fresh journal and no revisions. -/
theorem C7_witness :
    lookupA fxSuicided.copy.stateObjects 4 = lookupA fxSuicided.stateObjects 4
    ∧ (4 ∈ fxSuicided.copy.stateObjectsDirty)
    ∧ fxSuicided.copy.journal = newJournal
    ∧ fxSuicided.copy.validRevisions = [] := by
  obtain ⟨_, _, hj, hv, _, _, _, _, hcopy, _⟩ := C7_copy_deep_independent fxSuicided
  rcases hlk : lookupA fxSuicided.stateObjects 4 with _ | o
  · exact absurd hlk (by decide)
  · obtain ⟨h1, h2⟩ := hcopy 4 o (Or.inl (by decide)) hlk
    exact ⟨h1, h2, hj, hv⟩

theorem Journal.append_entries (j : Journal) (e : JournalEntry) :
    (j.append e).entries = j.entries ++ [e] := rfl

theorem Journal.append_length (j : Journal) (e : JournalEntry) :
    (j.append e).entries.length = j.entries.length + 1 := by
  rw [Journal.append_entries, List.length_append, List.length_singleton]

/-- Undoing one delta never touches the journal, the revision stack or the
revision counter. -/
theorem undoEntry_frame (s : StateDB) (e : JournalEntry) :
    (s.undoEntry e).journal = s.journal
    ∧ (s.undoEntry e).validRevisions = s.validRevisions
    ∧ (s.undoEntry e).nextRevisionId = s.nextRevisionId := by
  unfold StateDB.undoEntry
  cases e <;> dsimp only [] <;>
    first
      | exact ⟨rfl, rfl, rfl⟩
      | (split <;> exact ⟨rfl, rfl, rfl⟩)

/-- A revert step keeps the journal's entry list, the revision stack and the
revision counter (only the working set and the dirties refcounts change). -/
theorem revertStep_frame (s : StateDB) (e : JournalEntry) :
    (revertStep s e).journal.entries = s.journal.entries
    ∧ (revertStep s e).validRevisions = s.validRevisions
    ∧ (revertStep s e).nextRevisionId = s.nextRevisionId := by
  obtain ⟨h1, h2, h3⟩ := undoEntry_frame s e
  unfold revertStep
  rcases e.dirtiedAddress with _ | a
  · exact ⟨congrArg Journal.entries h1, h2, h3⟩
  · simp only []
    exact ⟨congrArg Journal.entries h1, h2, h3⟩

theorem revertFold_frame (L : List JournalEntry) (s : StateDB) :
    (L.foldl revertStep s).journal.entries = s.journal.entries
    ∧ (L.foldl revertStep s).validRevisions = s.validRevisions
    ∧ (L.foldl revertStep s).nextRevisionId = s.nextRevisionId := by
  induction L generalizing s with
  | nil => exact ⟨rfl, rfl, rfl⟩
  | cons e L ih =>
    obtain ⟨h1, h2, h3⟩ := revertStep_frame s e
    obtain ⟨g1, g2, g3⟩ := ih (revertStep s e)
    exact ⟨g1.trans h1, g2.trans h2, g3.trans h3⟩

/-- `journal.revert` truncates the entry list at `snap` and leaves the
revision stack and counter alone. -/
theorem journalRevert_spec (s : StateDB) (snap : Nat) :
    (s.journalRevert snap).journal.entries = s.journal.entries.take snap
    ∧ (s.journalRevert snap).validRevisions = s.validRevisions
    ∧ (s.journalRevert snap).nextRevisionId = s.nextRevisionId := by
  obtain ⟨h1, h2, h3⟩ := revertFold_frame ((s.journal.entries.drop snap).reverse) s
  unfold StateDB.journalRevert
  dsimp only []
  exact ⟨by rw [h1], h2, h3⟩

/-- The revision-stack invariant transfers along any operation that keeps
the stack and counter and does not shrink the journal. -/
theorem revinv_mono {s s' : StateDB} (h : RevInv s)
    (hrev : s'.validRevisions = s.validRevisions)
    (hnext : s'.nextRevisionId = s.nextRevisionId)
    (hlen : s.journal.entries.length ≤ s'.journal.entries.length) : RevInv s' := by
  obtain ⟨ho, hb⟩ := h
  constructor
  · unfold RevisionsOrdered at ho ⊢
    rw [hrev]
    exact ho
  · intro r hr
    rw [hrev] at hr
    obtain ⟨hid, hjl⟩ := hb r hr
    exact ⟨by rw [hnext]; exact hid, le_trans hjl hlen⟩

/-- States with no recorded revisions satisfy the invariant trivially. -/
theorem revinv_of_empty {s : StateDB} (h : s.validRevisions = []) : RevInv s := by
  constructor
  · unfold RevisionsOrdered
    rw [h]
    exact List.Pairwise.nil
  · intro r hr
    rw [h] at hr
    exact absurd hr (List.not_mem_nil r)

theorem getBalance_state (s : StateDB) (a : Addr) :
    (s.getBalance a).2 = (s.getStateObject a).2 := by
  unfold StateDB.getBalance
  rcases s.getStateObject a with ⟨o, s'⟩
  rcases o with _ | obj <;> rfl

theorem getNonce_state (s : StateDB) (a : Addr) :
    (s.getNonce a).2 = (s.getStateObject a).2 := by
  unfold StateDB.getNonce
  rcases s.getStateObject a with ⟨o, s'⟩
  rcases o with _ | obj <;> rfl

theorem exist_state (s : StateDB) (a : Addr) :
    (s.exist a).2 = (s.getStateObject a).2 := by
  unfold StateDB.exist
  rcases s.getStateObject a with ⟨o, s'⟩
  rfl

theorem hasSuicided_state (s : StateDB) (a : Addr) :
    (s.hasSuicided a).2 = (s.getStateObject a).2 := by
  unfold StateDB.hasSuicided
  rcases s.getStateObject a with ⟨o, s'⟩
  rcases o with _ | obj <;> rfl

/-- `Suicide` keeps the revision stack and counter and only appends to the
journal. -/
theorem suicide_revframe (s : StateDB) (a : Addr) :
    (s.suicide a).2.validRevisions = s.validRevisions
    ∧ (s.suicide a).2.nextRevisionId = s.nextRevisionId
    ∧ s.journal.entries.length ≤ (s.suicide a).2.journal.entries.length := by
  obtain ⟨hj, hv, hn, _⟩ := getStateObject_frame s a
  rcases hg : s.getStateObject a with ⟨o, s₁⟩
  rw [hg] at hj hv hn
  unfold StateDB.suicide
  rw [hg]
  rcases o with _ | obj
  · exact ⟨hv, hn, le_of_eq (by rw [hj])⟩
  · refine ⟨hv, hn, ?_⟩
    have : s.journal.entries.length = s₁.journal.entries.length := by rw [hj]
    rw [this]
    simp [Journal.append_length]

/-- `createObject` keeps the revision stack and counter and only appends to
the journal. -/
theorem createObject_revframe (s : StateDB) (now : Nat) (a : Addr) :
    (s.createObject now a).2.2.validRevisions = s.validRevisions
    ∧ (s.createObject now a).2.2.nextRevisionId = s.nextRevisionId
    ∧ s.journal.entries.length ≤ (s.createObject now a).2.2.journal.entries.length := by
  obtain ⟨hj, hv, hn, _⟩ := getStateObject_frame s a
  rcases hg : s.getStateObject a with ⟨o, s₁⟩
  rw [hg] at hj hv hn
  unfold StateDB.createObject
  rw [hg]
  have hlen : s.journal.entries.length = s₁.journal.entries.length := by rw [hj]
  rcases o with _ | p
  · exact ⟨hv, hn, by rw [hlen]; simp [StateDB.setStateObject, Journal.append_length]⟩
  · exact ⟨hv, hn, by rw [hlen]; simp [StateDB.setStateObject, Journal.append_length]⟩

/-- `CreateAccount` keeps the revision stack and counter and only appends to
the journal. -/
theorem createAccount_revframe (s : StateDB) (now : Nat) (a : Addr) :
    (s.createAccount now a).validRevisions = s.validRevisions
    ∧ (s.createAccount now a).nextRevisionId = s.nextRevisionId
    ∧ s.journal.entries.length ≤ (s.createAccount now a).journal.entries.length := by
  obtain ⟨hv, hn, hl⟩ := createObject_revframe s now a
  rcases hc : s.createObject now a with ⟨newobj, prev, s'⟩
  rw [hc] at hv hn hl
  unfold StateDB.createAccount
  rw [hc]
  rcases prev with _ | p
  · exact ⟨hv, hn, hl⟩
  · exact ⟨hv, hn, hl⟩

/-- `GetOrNewStateObject` keeps the revision stack and counter and only
appends to the journal. -/
theorem getOrNew_revframe (s : StateDB) (now : Nat) (a : Addr) :
    (s.getOrNewStateObject now a).2.validRevisions = s.validRevisions
    ∧ (s.getOrNewStateObject now a).2.nextRevisionId = s.nextRevisionId
    ∧ s.journal.entries.length ≤ (s.getOrNewStateObject now a).2.journal.entries.length := by
  obtain ⟨hj, hv, hn, _⟩ := getStateObject_frame s a
  rcases hg : s.getStateObject a with ⟨o, s₁⟩
  rw [hg] at hj hv hn
  obtain ⟨cv, cn, cl⟩ := createObject_revframe s₁ now a
  have hlen : s.journal.entries.length = s₁.journal.entries.length := by rw [hj]
  have hvs : s₁.validRevisions = s.validRevisions := hv
  have hns : s₁.nextRevisionId = s.nextRevisionId := hn
  rcases hc : s₁.createObject now a with ⟨n₁, p₁, s₂⟩
  rw [hc] at cv cn cl
  unfold StateDB.getOrNewStateObject
  rw [hg]
  dsimp only []
  rcases o with _ | obj
  · rw [hc]
    exact ⟨cv.trans hvs, cn.trans hns, hlen ▸ cl⟩
  · by_cases hd : obj.deleted = true
    · simp only [hd, if_true]
      rw [hc]
      exact ⟨cv.trans hvs, cn.trans hns, hlen ▸ cl⟩
    · simp only [hd, if_false]
      exact ⟨hvs, hns, le_of_eq hlen⟩

/-- `SetBalance` keeps the revision stack and counter and only appends. -/
theorem setBalance_revframe (s : StateDB) (now : Nat) (a : Addr) (v : Int) :
    (s.setBalance now a v).validRevisions = s.validRevisions
    ∧ (s.setBalance now a v).nextRevisionId = s.nextRevisionId
    ∧ s.journal.entries.length ≤ (s.setBalance now a v).journal.entries.length := by
  obtain ⟨hv, hn, hl⟩ := getOrNew_revframe s now a
  rcases hg : s.getOrNewStateObject now a with ⟨obj, s₁⟩
  rw [hg] at hv hn hl
  unfold StateDB.setBalance
  rw [hg]
  refine ⟨hv, hn, le_trans hl ?_⟩
  simp [Journal.append_length]

/-- `SetNonce` keeps the revision stack and counter and only appends. -/
theorem setNonce_revframe (s : StateDB) (now : Nat) (a : Addr) (n : Nat) :
    (s.setNonce now a n).validRevisions = s.validRevisions
    ∧ (s.setNonce now a n).nextRevisionId = s.nextRevisionId
    ∧ s.journal.entries.length ≤ (s.setNonce now a n).journal.entries.length := by
  obtain ⟨hv, hn, hl⟩ := getOrNew_revframe s now a
  rcases hg : s.getOrNewStateObject now a with ⟨obj, s₁⟩
  rw [hg] at hv hn hl
  unfold StateDB.setNonce
  rw [hg]
  refine ⟨hv, hn, le_trans hl ?_⟩
  simp [Journal.append_length]

/-- `Snapshot` preserves the revision-stack invariant: the appended pair has
a strictly larger id and a journal length at least every captured one. -/
theorem snapshot_preserves_revinv {s : StateDB} (h : RevInv s) :
    RevInv (s.snapshot).2 := by
  obtain ⟨ho, hb⟩ := h
  constructor
  · unfold RevisionsOrdered at ho ⊢
    unfold StateDB.snapshot
    dsimp only []
    rw [List.pairwise_append]
    refine ⟨ho, List.pairwise_singleton _ _, ?_⟩
    intro r hr r' hr'
    rw [List.mem_singleton] at hr'
    subst hr'
    exact ⟨(hb r hr).1, (hb r hr).2⟩
  · intro r hr
    unfold StateDB.snapshot at hr ⊢
    dsimp only [] at hr ⊢
    rw [List.mem_append, List.mem_singleton] at hr
    rcases hr with hr | hr
    · exact ⟨Nat.lt_succ_of_lt (hb r hr).1, (hb r hr).2⟩
    · subst hr
      exact ⟨Nat.lt_succ_self _, le_refl _⟩

theorem searchLoop_bounds_aux :
    ∀ (fuel : Nat) (p : Nat → Bool) (lo hi : Nat), hi - lo ≤ fuel → lo ≤ hi →
      lo ≤ searchLoop p lo hi ∧ searchLoop p lo hi ≤ hi := by
  intro fuel
  induction fuel with
  | zero =>
    intro p lo hi hf hle
    have : lo = hi := by omega
    subst this
    unfold searchLoop
    simp
  | succ f ih =>
    intro p lo hi hf hle
    unfold searchLoop
    by_cases h : lo < hi
    · simp only [h, dif_pos]
      by_cases hp : p ((lo + hi) / 2)
      · simp only [hp, if_true]
        obtain ⟨h1, h2⟩ := ih p lo ((lo + hi) / 2) (by omega) (by omega)
        exact ⟨h1, le_trans h2 (by omega)⟩
      · simp only [hp, if_false]
        obtain ⟨h1, h2⟩ := ih p ((lo + hi) / 2 + 1) hi (by omega) (by omega)
        exact ⟨le_trans (by omega) h1, h2⟩
    · simp only [h, dif_neg, not_false_iff]
      exact ⟨le_refl lo, hle⟩

theorem searchLoop_bounds (p : Nat → Bool) (n : Nat) :
    searchLoop p 0 n ≤ n :=
  (searchLoop_bounds_aux (n - 0) p 0 n (le_refl _) (Nat.zero_le n)).2

/-- Earlier entries of an ordered revision stack have journal lengths at
most the one captured at position `idx`. -/
theorem pairwise_take_jle {l : List Revision}
    (hp : List.Pairwise (fun a b => a.id < b.id ∧ a.journalIndex ≤ b.journalIndex) l)
    (idx : Nat) (hidx : idx < l.length) :
    ∀ r ∈ l.take idx, r.journalIndex ≤ (l.getD idx ⟨0, 0⟩).journalIndex := by
  induction l generalizing idx with
  | nil => simp at hidx
  | cons x t ih =>
    rcases idx with _ | k
    · simp
    · intro r hr
      rw [List.take_succ_cons] at hr
      rw [List.getD_cons_succ]
      rcases List.mem_cons.mp hr with rfl | hr'
      · have hk : k < t.length := by simpa using hidx
        have hmem : t.getD k ⟨0, 0⟩ ∈ t := by
          rw [List.getD_eq_getElem t ⟨0, 0⟩ hk]
          exact List.getElem_mem hk
        exact ((List.pairwise_cons.mp hp).1 _ hmem).2
      · exact ih (List.pairwise_cons.mp hp).2 k (by simpa using hidx) r hr'

/-- A successful `RevertToSnapshot` preserves the revision-stack invariant. -/
theorem revert_preserves_revinv {s s' : StateDB} {revid : Nat} (h : RevInv s)
    (hr : s.revertToSnapshot revid = some s') : RevInv s' := by
  obtain ⟨ho, hb⟩ := h
  unfold StateDB.revertToSnapshot at hr
  dsimp only [] at hr
  split at hr
  · exact absurd hr (by simp)
  · rename_i hcond
    push_neg at hcond
    obtain ⟨hne, hid⟩ := hcond
    have hlt : searchLoop (fun i => decide (revid ≤ (s.validRevisions.getD i ⟨0, 0⟩).id))
        0 s.validRevisions.length < s.validRevisions.length :=
      lt_of_le_of_ne (searchLoop_bounds _ _) hne
    rw [Option.some_inj] at hr
    obtain ⟨hje, hjv, hjn⟩ := journalRevert_spec s
      ((s.validRevisions.getD (searchLoop (fun i =>
        decide (revid ≤ (s.validRevisions.getD i ⟨0, 0⟩).id)) 0 s.validRevisions.length)
        ⟨0, 0⟩).journalIndex)
    constructor
    · unfold RevisionsOrdered
      rw [← hr]
      dsimp only []
      rw [hjv]
      exact ho.sublist (List.take_sublist _ _)
    · intro r hrr
      rw [← hr] at hrr
      dsimp only [] at hrr
      rw [hjv] at hrr
      have hmem : r ∈ s.validRevisions := List.take_subset _ _ hrr
      obtain ⟨hid', hjl'⟩ := hb r hmem
      constructor
      · rw [← hr]
        dsimp only []
        rw [hjn]
        exact hid'
      · rw [← hr]
        dsimp only []
        rw [hje]
        have hsnap : (s.validRevisions.getD (searchLoop (fun i =>
            decide (revid ≤ (s.validRevisions.getD i ⟨0, 0⟩).id)) 0 s.validRevisions.length)
            ⟨0, 0⟩).journalIndex ≤ s.journal.entries.length := by
          have hmem' : s.validRevisions.getD (searchLoop (fun i =>
              decide (revid ≤ (s.validRevisions.getD i ⟨0, 0⟩).id)) 0 s.validRevisions.length)
              ⟨0, 0⟩ ∈ s.validRevisions := by
            rw [List.getD_eq_getElem s.validRevisions ⟨0, 0⟩ hlt]
            exact List.getElem_mem hlt
          exact (hb _ hmem').2
        rw [List.length_take]
        refine le_min ?_ (le_trans (pairwise_take_jle ho _ hlt r hrr) hsnap)
        exact pairwise_take_jle ho _ hlt r hrr

theorem copy_validRevisions (s : StateDB) : s.copy.validRevisions = [] := by
  have hrfl : s.copy =
      { s.stateObjectsDirty.foldl (copyDirtySetStep s)
          (s.journal.dirties.dedup.foldl (copyDirtyStep s) (copyBase s)) with
        logs := s.logs, preimages := s.preimages } := rfl
  obtain ⟨_, _, _, f1v, _, _⟩ := copy_fold1_frame s s.journal.dirties.dedup (copyBase s)
  obtain ⟨_, _, _, f2v, _, _⟩ := copy_fold2_frame s s.stateObjectsDirty
    (s.journal.dirties.dedup.foldl (copyDirtyStep s) (copyBase s))
  rw [hrfl]
  exact f2v.trans f1v

theorem addPreimage_revframe (s : StateDB) (h : Hash) (p : Bytes) :
    (s.addPreimage h p).validRevisions = s.validRevisions
    ∧ (s.addPreimage h p).nextRevisionId = s.nextRevisionId
    ∧ s.journal.entries.length ≤ (s.addPreimage h p).journal.entries.length := by
  unfold StateDB.addPreimage
  rcases lookupA s.preimages h with _ | v
  · exact ⟨rfl, rfl, by simp [Journal.append_length]⟩
  · exact ⟨rfl, rfl, le_refl _⟩

/-- Every reachable state satisfies the revision-stack invariant: ids
strictly increase, journal lengths weakly increase, ids stay below
`nextRevisionId` and captured lengths stay within the journal. -/
theorem reachable_revinv {s : StateDB} (h : Reachable s) : RevInv s := by
  induction h with
  | init db tr => exact revinv_of_empty rfl
  | getBalance a _ ih =>
    obtain ⟨hj, hv, hn, _⟩ := getStateObject_frame _ a
    exact revinv_mono ih (by rw [getBalance_state]; exact hv)
      (by rw [getBalance_state]; exact hn)
      (by rw [getBalance_state, hj])
  | getNonce a _ ih =>
    obtain ⟨hj, hv, hn, _⟩ := getStateObject_frame _ a
    exact revinv_mono ih (by rw [getNonce_state]; exact hv)
      (by rw [getNonce_state]; exact hn)
      (by rw [getNonce_state, hj])
  | exist a _ ih =>
    obtain ⟨hj, hv, hn, _⟩ := getStateObject_frame _ a
    exact revinv_mono ih (by rw [exist_state]; exact hv)
      (by rw [exist_state]; exact hn)
      (by rw [exist_state, hj])
  | hasSuicided a _ ih =>
    obtain ⟨hj, hv, hn, _⟩ := getStateObject_frame _ a
    exact revinv_mono ih (by rw [hasSuicided_state]; exact hv)
      (by rw [hasSuicided_state]; exact hn)
      (by rw [hasSuicided_state, hj])
  | addPreimage h p _ ih =>
    obtain ⟨hv, hn, hl⟩ := addPreimage_revframe _ h p
    exact revinv_mono ih hv hn hl
  | addRefund g _ ih =>
    exact revinv_mono ih rfl rfl (by simp [StateDB.addRefund, Journal.append_length])
  | addLog l _ ih =>
    exact revinv_mono ih rfl rfl (by simp [StateDB.addLog, Journal.append_length])
  | suicide a _ ih =>
    obtain ⟨hv, hn, hl⟩ := suicide_revframe _ a
    exact revinv_mono ih hv hn hl
  | createObject now a _ ih =>
    obtain ⟨hv, hn, hl⟩ := createObject_revframe _ now a
    exact revinv_mono ih hv hn hl
  | createAccount now a _ ih =>
    obtain ⟨hv, hn, hl⟩ := createAccount_revframe _ now a
    exact revinv_mono ih hv hn hl
  | setBalance now a v _ ih =>
    obtain ⟨hv, hn, hl⟩ := setBalance_revframe _ now a v
    exact revinv_mono ih hv hn hl
  | setNonce now a n _ ih =>
    obtain ⟨hv, hn, hl⟩ := setNonce_revframe _ now a n
    exact revinv_mono ih hv hn hl
  | snapshot _ ih => exact snapshot_preserves_revinv ih
  | revertToSnapshot id _ hr ih => exact revert_preserves_revinv ih hr
  | finalise de _ _ => exact revinv_of_empty rfl
  | intermediateRoot de _ _ => exact revinv_of_empty rfl
  | commit de _ _ => exact revinv_of_empty rfl
  | reset root _ ih =>
    rename_i s₀ _
    rcases ho : s₀.db.openTrie root with e | tr
    · have hre : (s₀.reset root).1 = s₀ := by
        unfold StateDB.reset; rw [ho]
      rw [hre]
      exact ih
    · have hre : (s₀.reset root).1.validRevisions = [] := by
        unfold StateDB.reset
        rw [ho]
        rfl
      exact revinv_of_empty hre
  | copy _ _ => exact revinv_of_empty (copy_validRevisions _)
  | prepare th bh ti _ ih => exact revinv_mono ih rfl rfl (le_refl _)

/-- C3 counterexample: two consecutive `Snapshot` calls on a fresh state are
reachable and capture the same journal length twice, so `validRevisions` is
not strictly increasing in `journalLen` (only its ids strictly increase). -/
theorem C3_strict_journalLen_counterexample :
    Reachable ((fxS.snapshot).2.snapshot).2
    ∧ ((fxS.snapshot).2.snapshot).2.validRevisions = [⟨0, 0⟩, ⟨1, 0⟩]
    ∧ ¬ List.Pairwise (fun a b => a.id < b.id ∧ a.journalIndex < b.journalIndex)
        ((fxS.snapshot).2.snapshot).2.validRevisions := by
  refine ⟨Reachable.snapshot (Reachable.snapshot (Reachable.init fxDb fxTrie)), rfl, ?_⟩
  intro hp
  rw [show ((fxS.snapshot).2.snapshot).2.validRevisions
      = [⟨0, 0⟩, ⟨1, 0⟩] from rfl] at hp
  have h01 := (List.pairwise_cons.mp hp).1 ⟨1, 0⟩ (by simp)
  exact absurd h01.2 (lt_irrefl 0)

/-- C3 amended: in every reachable state `validRevisions` is strictly
increasing in `id` and weakly increasing in `journalLen`; `Snapshot` appends
`(nextRevisionId++, journal.length)` and `RevertToSnapshot` truncates, both
preserving the invariant (by `reachable_revinv`), and successive `Snapshot`
calls return strictly increasing ids. -/
theorem C3_valid_revisions_ordered_amended (s : StateDB) (h : Reachable s) :
    List.Pairwise (fun a b => a.id < b.id ∧ a.journalIndex ≤ b.journalIndex)
      s.validRevisions
    ∧ (s.snapshot).1 < ((s.snapshot).2.snapshot).1
    ∧ (s.snapshot).2.validRevisions =
        s.validRevisions ++ [⟨s.nextRevisionId, s.journal.length⟩] := by
  refine ⟨(reachable_revinv h).1, ?_, rfl⟩
  unfold StateDB.snapshot
  simp

/-- Witness for C3 at the initial fixture state. -/
theorem C3_witness :
    List.Pairwise (fun a b => a.id < b.id ∧ a.journalIndex ≤ b.journalIndex)
      fxS.validRevisions
    ∧ (fxS.snapshot).1 < ((fxS.snapshot).2.snapshot).1
    ∧ (fxS.snapshot).2.validRevisions =
        fxS.validRevisions ++ [⟨fxS.nextRevisionId, fxS.journal.length⟩] :=
  C3_valid_revisions_ordered_amended fxS (Reachable.init fxDb fxTrie)

/-- Correctness of the `sort.Search` loop: under a monotone predicate the
result bounds a false-prefix and, when inside the range, satisfies the
predicate. -/
theorem searchLoop_spec_aux :
    ∀ (fuel : Nat) (p : Nat → Bool) (lo hi : Nat), hi - lo ≤ fuel → lo ≤ hi →
      (∀ i j, i ≤ j → j < hi → p i = true → p j = true) →
      (∀ k, lo ≤ k → k < searchLoop p lo hi → p k = false)
      ∧ (searchLoop p lo hi < hi → p (searchLoop p lo hi) = true) := by
  intro fuel
  induction fuel with
  | zero =>
    intro p lo hi hf hle hmono
    have heq : lo = hi := by omega
    subst heq
    have hs : searchLoop p lo lo = lo := by
      unfold searchLoop
      simp
    rw [hs]
    exact ⟨fun k hk1 hk2 => (by omega : False).elim,
           fun hlt => (by omega : False).elim⟩
  | succ f ih =>
    intro p lo hi hf hle hmono
    by_cases h : lo < hi
    · have hs : searchLoop p lo hi =
          (if p ((lo + hi) / 2) then searchLoop p lo ((lo + hi) / 2)
           else searchLoop p ((lo + hi) / 2 + 1) hi) := by
        conv_lhs => unfold searchLoop
        rw [dif_pos h]
      by_cases hp : p ((lo + hi) / 2) = true
      · rw [hs, if_pos hp]
        obtain ⟨ha, hb⟩ := ih p lo ((lo + hi) / 2) (by omega) (by omega)
          (fun i j hij hj hpi => hmono i j hij (by omega) hpi)
        refine ⟨ha, fun hlt => ?_⟩
        by_cases hrm : searchLoop p lo ((lo + hi) / 2) < (lo + hi) / 2
        · exact hb hrm
        · have hrb := (searchLoop_bounds_aux f p lo ((lo + hi) / 2)
            (by omega) (by omega)).2
          have heq : searchLoop p lo ((lo + hi) / 2) = (lo + hi) / 2 := by omega
          rw [heq]
          exact hp
      · rw [hs, if_neg hp]
        have hp' : p ((lo + hi) / 2) = false := by
          cases hq : p ((lo + hi) / 2)
          · rfl
          · exact absurd hq hp
        obtain ⟨ha, hb⟩ := ih p ((lo + hi) / 2 + 1) hi (by omega) (by omega) hmono
        refine ⟨fun k hk1 hk2 => ?_, hb⟩
        by_cases hkm : k ≤ (lo + hi) / 2
        · cases hq : p k
          · rfl
          · exact absurd (hmono k ((lo + hi) / 2) hkm (by omega) hq)
              (by rw [hp']; simp)
        · exact ha k (by omega) hk2
    · have hs : searchLoop p lo hi = lo := by
        unfold searchLoop
        rw [dif_neg h]
      rw [hs]
      exact ⟨fun k hk1 hk2 => (by omega : False).elim,
             fun hlt => (by omega : False).elim⟩

/-- On a strictly id-ordered revision stack, ids are monotone in the index. -/
theorem pairwise_ids_mono {l : List Revision}
    (hp : List.Pairwise (fun a b => a.id < b.id) l)
    (i j : Nat) (hij : i ≤ j) (hj : j < l.length) :
    (l.getD i ⟨0, 0⟩).id ≤ (l.getD j ⟨0, 0⟩).id := by
  rcases Nat.lt_or_ge i j with hlt | hge
  · have hi : i < l.length := lt_trans hlt hj
    rw [List.getD_eq_getElem l ⟨0, 0⟩ hi, List.getD_eq_getElem l ⟨0, 0⟩ hj]
    exact le_of_lt (List.pairwise_iff_getElem.mp hp i j hi hj hlt)
  · have heq : i = j := le_antisymm hij hge
    subst heq
    exact le_refl _

/-- The binary search of `RevertToSnapshot` locates the exact index of a
recorded id. -/
theorem search_finds {l : List Revision}
    (hp : List.Pairwise (fun a b => a.id < b.id) l) (revid k : Nat)
    (hk : k < l.length) (hkid : (l.getD k ⟨0, 0⟩).id = revid) :
    searchLoop (fun i => revid ≤ (l.getD i ⟨0, 0⟩).id) 0 l.length = k := by
  have hmono : ∀ i j, i ≤ j → j < l.length →
      (fun i => decide (revid ≤ (l.getD i ⟨0, 0⟩).id)) i = true →
      (fun i => decide (revid ≤ (l.getD i ⟨0, 0⟩).id)) j = true := by
    intro i j hij hj hpi
    simp only [decide_eq_true_eq] at hpi ⊢
    exact le_trans hpi (pairwise_ids_mono hp i j hij hj)
  obtain ⟨ha, hb⟩ := searchLoop_spec_aux l.length
    (fun i => decide (revid ≤ (l.getD i ⟨0, 0⟩).id)) 0 l.length
    (by omega) (Nat.zero_le _) hmono
  have hrk : searchLoop (fun i => revid ≤ (l.getD i ⟨0, 0⟩).id) 0 l.length ≤ k := by
    by_contra hcon
    push_neg at hcon
    have hfalse := ha k (Nat.zero_le _) hcon
    simp only [decide_eq_false_iff_not] at hfalse
    exact hfalse (by rw [hkid])
  have hrlt : searchLoop (fun i => revid ≤ (l.getD i ⟨0, 0⟩).id) 0 l.length < l.length :=
    lt_of_le_of_lt hrk hk
  have hpr := hb hrlt
  rcases Nat.lt_or_ge (searchLoop (fun i => revid ≤ (l.getD i ⟨0, 0⟩).id) 0 l.length) k
    with hlt | hge
  · exfalso
    have hidlt : (l.getD (searchLoop (fun i => revid ≤ (l.getD i ⟨0, 0⟩).id)
        0 l.length) ⟨0, 0⟩).id < (l.getD k ⟨0, 0⟩).id := by
      rw [List.getD_eq_getElem l ⟨0, 0⟩ hrlt, List.getD_eq_getElem l ⟨0, 0⟩ hk]
      exact List.pairwise_iff_getElem.mp hp _ _ hrlt hk hlt
    simp only [decide_eq_true_eq] at hpr
    omega
  · exact le_antisymm hrk hge

/-- `RevertToSnapshot` on a recorded id reverts the journal to the captured
length and truncates `validRevisions` at the found index. -/
theorem revertToSnapshot_found (s : StateDB)
    (hp : List.Pairwise (fun a b => a.id < b.id) s.validRevisions)
    (k : Nat) (hk : k < s.validRevisions.length) :
    s.revertToSnapshot ((s.validRevisions.getD k ⟨0, 0⟩).id) =
      some { (s.journalRevert ((s.validRevisions.getD k ⟨0, 0⟩).journalIndex)) with
             validRevisions := s.validRevisions.take k } := by
  unfold StateDB.revertToSnapshot
  dsimp only []
  rw [search_finds hp _ k hk rfl]
  rw [if_neg ?hguard]
  case hguard =>
    rintro (h1 | h2)
    · omega
    · exact h2 rfl
  rw [(journalRevert_spec s ((s.validRevisions.getD k ⟨0, 0⟩).journalIndex)).2.1]

/-- `RevertToSnapshot` on an unrecorded id is fatal (panics, modelled as
`none`). -/
theorem revertToSnapshot_absent (s : StateDB) (revid : Nat)
    (h : revid ∉ s.validRevisions.map Revision.id) :
    s.revertToSnapshot revid = none := by
  unfold StateDB.revertToSnapshot
  dsimp only []
  rw [if_pos]
  by_cases he : searchLoop (fun i => revid ≤ ((s.validRevisions.getD i ⟨0, 0⟩).id))
      0 s.validRevisions.length = s.validRevisions.length
  · exact Or.inl he
  · refine Or.inr ?_
    intro hid
    apply h
    have hlt : searchLoop (fun i => revid ≤ ((s.validRevisions.getD i ⟨0, 0⟩).id))
        0 s.validRevisions.length < s.validRevisions.length :=
      lt_of_le_of_ne (searchLoop_bounds _ _) he
    rw [← hid]
    refine List.mem_map_of_mem Revision.id ?_
    rw [List.getD_eq_getElem s.validRevisions ⟨0, 0⟩ hlt]
    exact List.getElem_mem hlt

/-- Entries before position `k1` of a strictly id-ordered stack have ids
strictly below the id at any later position `k2`. -/
theorem pairwise_take_id_lt {l : List Revision}
    (hp : List.Pairwise (fun a b => a.id < b.id) l)
    (k1 k2 : Nat) (h12 : k1 ≤ k2) (hk2 : k2 < l.length) :
    ∀ r ∈ l.take k1, r.id < (l.getD k2 ⟨0, 0⟩).id := by
  induction l generalizing k1 k2 with
  | nil => simp at hk2
  | cons x t ih =>
    rcases k1 with _ | j
    · simp
    · rcases k2 with _ | m
      · omega
      · intro r hr
        rw [List.take_succ_cons] at hr
        rw [List.getD_cons_succ]
        rcases List.mem_cons.mp hr with rfl | hr'
        · have hm : m < t.length := by simpa using hk2
          have hmem : t.getD m ⟨0, 0⟩ ∈ t := by
            rw [List.getD_eq_getElem t ⟨0, 0⟩ hm]
            exact List.getElem_mem hm
          exact (List.pairwise_cons.mp hp).1 _ hmem
        · exact ih (List.pairwise_cons.mp hp).2 j m (by omega)
            (by simpa using hk2) r hr'

theorem getD_take (l : List Revision) (d : Revision) (k1 k2 : Nat)
    (h12 : k1 < k2) (hk1 : k1 < l.length) :
    (l.take k2).getD k1 d = l.getD k1 d := by
  have hlen : k1 < (l.take k2).length := by
    rw [List.length_take]
    omega
  rw [List.getD_eq_getElem _ _ hlen, List.getD_eq_getElem _ _ hk1]
  exact List.getElem_take l

/-- C4: `RevertToSnapshot(id)` with an unrecorded id is fatal (`none`); with
a recorded id (position `k`) it calls `journal.revert` with the captured
journal length and truncates `validRevisions` at `k`.  Consequently, after
reverting to a later snapshot S2 an earlier snapshot S1 is still valid,
while reverting to S2 after having reverted to S1 is fatal. -/
theorem C4_revert_to_snapshot (s : StateDB)
    (hp : List.Pairwise (fun a b => a.id < b.id) s.validRevisions) :
    (∀ revid, revid ∉ s.validRevisions.map Revision.id →
      s.revertToSnapshot revid = none)
    ∧ (∀ k, k < s.validRevisions.length →
        s.revertToSnapshot ((s.validRevisions.getD k ⟨0, 0⟩).id) =
          some { (s.journalRevert ((s.validRevisions.getD k ⟨0, 0⟩).journalIndex)) with
                 validRevisions := s.validRevisions.take k })
    ∧ (∀ k1 k2, k1 < k2 → k2 < s.validRevisions.length →
        (∃ s2, s.revertToSnapshot ((s.validRevisions.getD k2 ⟨0, 0⟩).id) = some s2
          ∧ ∃ s1, s2.revertToSnapshot ((s.validRevisions.getD k1 ⟨0, 0⟩).id) = some s1)
        ∧ (∀ s1, s.revertToSnapshot ((s.validRevisions.getD k1 ⟨0, 0⟩).id) = some s1 →
            s1.revertToSnapshot ((s.validRevisions.getD k2 ⟨0, 0⟩).id) = none)) := by
  refine ⟨revertToSnapshot_absent s, revertToSnapshot_found s hp, ?_⟩
  intro k1 k2 h12 hk2
  have hk1 : k1 < s.validRevisions.length := lt_trans h12 hk2
  constructor
  · refine ⟨_, revertToSnapshot_found s hp k2 hk2, ?_⟩
    set s2 := { (s.journalRevert ((s.validRevisions.getD k2 ⟨0, 0⟩).journalIndex)) with
                validRevisions := s.validRevisions.take k2 } with hs2
    have hv2 : s2.validRevisions = s.validRevisions.take k2 := rfl
    have hp2 : List.Pairwise (fun a b => a.id < b.id) s2.validRevisions := by
      rw [hv2]
      exact hp.sublist (List.take_sublist _ _)
    have hk1' : k1 < s2.validRevisions.length := by
      rw [hv2, List.length_take]
      omega
    have hgd : s2.validRevisions.getD k1 ⟨0, 0⟩ = s.validRevisions.getD k1 ⟨0, 0⟩ := by
      rw [hv2]
      exact getD_take s.validRevisions ⟨0, 0⟩ k1 k2 h12 hk1
    have hfound := revertToSnapshot_found s2 hp2 k1 hk1'
    rw [hgd] at hfound
    exact ⟨_, hfound⟩
  · intro s1 hs1
    rw [revertToSnapshot_found s hp k1 hk1] at hs1
    rw [Option.some_inj] at hs1
    have hv1 : s1.validRevisions = s.validRevisions.take k1 := by rw [← hs1]
    apply revertToSnapshot_absent
    rw [hv1]
    intro hmem
    rw [List.mem_map] at hmem
    obtain ⟨r, hr, hrid⟩ := hmem
    have := pairwise_take_id_lt hp k1 k2 (le_of_lt h12) hk2 r hr
    omega

/-- Witness for C4 at the two-snapshot fixture: id 5 is fatal, id at
position 1 reverts, and after reverting to position 1 the earlier id at
position 0 still reverts. -/
theorem C4_witness :
    fxS2.revertToSnapshot 5 = none
    ∧ fxS2.revertToSnapshot ((fxS2.validRevisions.getD 1 ⟨0, 0⟩).id) =
        some { (fxS2.journalRevert ((fxS2.validRevisions.getD 1 ⟨0, 0⟩).journalIndex)) with
               validRevisions := fxS2.validRevisions.take 1 }
    ∧ (∃ s2, fxS2.revertToSnapshot ((fxS2.validRevisions.getD 1 ⟨0, 0⟩).id) = some s2
        ∧ ∃ s1, s2.revertToSnapshot ((fxS2.validRevisions.getD 0 ⟨0, 0⟩).id) = some s1) := by
  have h := C4_revert_to_snapshot fxS2
    ((reachable_revinv (Reachable.snapshot (Reachable.snapshot
      (Reachable.init fxDb fxTrie)))).1.imp (fun hab => hab.1))
  exact ⟨h.1 5 (by decide), h.2.1 1 (by decide), (h.2.2 0 1 (by decide) (by decide)).1⟩

theorem lookupA_mem {α : Type} {l : List (Nat × α)} {k : Nat} {v : α}
    (h : lookupA l k = some v) : (k, v) ∈ l := by
  unfold lookupA at h
  rcases hf : l.find? (fun p => p.1 == k) with _ | p
  · rw [hf] at h
    exact absurd h (by simp)
  · rw [hf] at h
    have hp2 : p.2 = v := by simpa using h
    have hpred := List.find?_some hf
    have hp1 : p.1 = k := by simpa using hpred
    have : p = (k, v) := by
      rcases p with ⟨p1, p2⟩
      simp only [] at hp1 hp2
      rw [hp1, hp2]
    rw [← this]
    exact List.mem_of_find?_eq_some hf

theorem mem_insertA {α : Type} {l : List (Nat × α)} {k : Nat} {v : α} {p : Nat × α}
    (h : p ∈ insertA l k v) : p = (k, v) ∨ p ∈ l := by
  unfold insertA at h
  rcases List.mem_cons.mp h with h | h
  · exact Or.inl h
  · exact Or.inr (List.mem_of_mem_filter h)

/-- Inserting an object keyed by its own account address preserves
well-formedness. -/
theorem wf_insert {s : StateDB} {k : Addr} {o : StateObject}
    (hwf : WFObjects s) (hko : o.account.address = k) (t : StateDB)
    (ht : t.stateObjects = insertA s.stateObjects k o) : WFObjects t := by
  intro p hp
  rw [ht] at hp
  rcases mem_insertA hp with rfl | hp'
  · exact hko
  · exact hwf p hp'

/-- A live object returned by `getStateObject` is keyed by its recorded
address, is not deleted, stays in the (possibly updated) working set, and
well-formedness survives the call. -/
theorem getStateObject_some_spec {s : StateDB} {addr : Addr} {obj : StateObject}
    (hwf : WFObjects s) (hg : (s.getStateObject addr).1 = some obj) :
    obj.account.address = addr
    ∧ obj.deleted = false
    ∧ lookupA (s.getStateObject addr).2.stateObjects addr = some obj
    ∧ WFObjects (s.getStateObject addr).2 := by
  rcases hl : lookupA s.stateObjects addr with _ | o
  · rcases ht : lookupA s.trie.slots addr with _ | sl
    · rw [getStateObject_absent s addr hl ht] at hg
      exact absurd hg (by simp)
    · rcases sl with d | _
      · rw [getStateObject_load s addr d hl ht] at hg ⊢
        have hobj : obj = newStateObject addr d := by simpa using hg.symm
        subst hobj
        refine ⟨rfl, rfl, ?_, ?_⟩
        · simp only [StateDB.setStateObject, newStateObject]
          rw [lookupA_insertA]
          simp
        · exact wf_insert hwf rfl _ rfl
      · rw [getStateObject_corrupt s addr hl ht] at hg
        exact absurd hg (by simp)
  · by_cases hd : o.deleted
    · rw [getStateObject_deleted s addr o hl hd] at hg
      exact absurd hg (by simp)
    · rw [getStateObject_live s addr o hl (by simpa using hd)] at hg ⊢
      have hobj : obj = o := by simpa using hg.symm
      subst hobj
      have haddr : obj.account.address = addr := hwf (addr, obj) (lookupA_mem hl)
      exact ⟨haddr, by simpa using hd, hl, hwf⟩

theorem updateRootObj_address (db : Database) (o : StateObject) :
    (StateObject.updateRootObj db o).account.address = o.account.address := rfl

/-- One `Finalise` iteration preserves well-formedness of the working set. -/
theorem finaliseStep_wf (de : Bool) (t : StateDB) (b : Addr)
    (hwf : WFObjects t) : WFObjects (t.finaliseStep de b) := by
  unfold StateDB.finaliseStep
  rcases hl : lookupA t.stateObjects b with _ | ob
  · exact hwf
  · have haddr : ob.account.address = b := hwf (b, ob) (lookupA_mem hl)
    dsimp only []
    by_cases hc : (ob.suicided || (de && ob.isEmptyAccount)) = true
    · rw [if_pos hc]
      unfold StateDB.deleteStateObject
      exact wf_insert hwf
        (show ({ ob with deleted := true } : StateObject).account.address = b from haddr) _ rfl
    · rw [if_neg hc]
      unfold StateDB.updateStateObject
      exact wf_insert hwf ((updateRootObj_address t.db ob).trans haddr) _ rfl

/-- A `Finalise` iteration for another address leaves this address's live
entry alone. -/
theorem finaliseStep_lookup_other (de : Bool) (t : StateDB) (b addr : Addr)
    (hne : addr ≠ b) :
    lookupA (t.finaliseStep de b).stateObjects addr = lookupA t.stateObjects addr := by
  unfold StateDB.finaliseStep
  rcases hl : lookupA t.stateObjects b with _ | ob
  · rfl
  · dsimp only []
    by_cases hc : (ob.suicided || (de && ob.isEmptyAccount)) = true
    · rw [if_pos hc]
      unfold StateDB.deleteStateObject
      dsimp only []
      rw [lookupA_insertA, if_neg hne]
    · rw [if_neg hc]
      unfold StateDB.updateStateObject
      dsimp only []
      rw [lookupA_insertA, if_neg hne]

/-- A `Finalise` iteration for a well-formed working set never resurrects a
trie entry already deleted at a different address. -/
theorem finaliseStep_trie_none (de : Bool) (t : StateDB) (b addr : Addr)
    (hwf : WFObjects t) (hne : addr ≠ b)
    (htr : lookupA t.trie.slots addr = none) :
    lookupA (t.finaliseStep de b).trie.slots addr = none := by
  unfold StateDB.finaliseStep
  rcases hl : lookupA t.stateObjects b with _ | ob
  · exact htr
  · have haddr : ob.account.address = b := hwf (b, ob) (lookupA_mem hl)
    dsimp only []
    by_cases hc : (ob.suicided || (de && ob.isEmptyAccount)) = true
    · rw [if_pos hc]
      unfold StateDB.deleteStateObject
      dsimp only []
      rw [lookupA_eraseA]
      split
      · rfl
      · exact htr
    · rw [if_neg hc]
      unfold StateDB.updateStateObject
      dsimp only []
      rw [lookupA_insertA, if_neg (by rw [updateRootObj_address, haddr]; exact hne)]
      exact htr

/-- Once an address's trie entry is gone and its live object (if any) is
suicided, the rest of the `Finalise` loop keeps the trie entry gone. -/
theorem finalise_fold_keeps (de : Bool) (L : List Addr) (t : StateDB) (addr : Addr)
    (hwf : WFObjects t)
    (htr : lookupA t.trie.slots addr = none)
    (hobj : ∀ o, lookupA t.stateObjects addr = some o → o.suicided = true) :
    lookupA (L.foldl (StateDB.finaliseStep de) t).trie.slots addr = none := by
  induction L generalizing t with
  | nil => exact htr
  | cons b L ih =>
    rw [List.foldl_cons]
    by_cases hb : addr = b
    · subst hb
      rcases hl : lookupA t.stateObjects addr with _ | o
      · have hstep : t.finaliseStep de addr = t := by
          unfold StateDB.finaliseStep
          rw [hl]
        rw [hstep]
        exact ih t hwf htr hobj
      · have hsui : o.suicided = true := hobj o hl
        have haddr : o.account.address = addr := hwf (addr, o) (lookupA_mem hl)
        have hstep : t.finaliseStep de addr =
            { t.deleteStateObject addr o with
              stateObjectsDirty := insertS (t.deleteStateObject addr o).stateObjectsDirty addr } := by
          unfold StateDB.finaliseStep
          rw [hl]
          dsimp only []
          rw [if_pos (by rw [hsui]; rfl)]
        rw [hstep]
        refine ih _ ?_ ?_ ?_
        · exact wf_insert hwf (show ({ o with deleted := true } : StateObject).account.address = addr from haddr) _ rfl
        · unfold StateDB.deleteStateObject
          dsimp only []
          rw [lookupA_eraseA]
          split
          · rfl
          · exact htr
        · intro o' ho'
          unfold StateDB.deleteStateObject at ho'
          dsimp only [] at ho'
          rw [lookupA_insertA, if_pos rfl] at ho'
          have : o' = { o with deleted := true } := by simpa using ho'.symm
          rw [this]
          exact hsui
    · exact ih _ (finaliseStep_wf de t b hwf)
        (finaliseStep_trie_none de t b addr hwf hb htr)
        (fun o ho => hobj o ((finaliseStep_lookup_other de t b addr hb) ▸ ho))

/-- Addresses not in the processed prefix keep their live entry, and
well-formedness survives the whole prefix. -/
theorem finalise_fold_untouched (de : Bool) (L : List Addr) (t : StateDB) (addr : Addr)
    (hnin : addr ∉ L) (hwf : WFObjects t) :
    lookupA ((L.foldl (StateDB.finaliseStep de) t)).stateObjects addr
        = lookupA t.stateObjects addr
    ∧ WFObjects (L.foldl (StateDB.finaliseStep de) t) := by
  induction L generalizing t with
  | nil => exact ⟨rfl, hwf⟩
  | cons b L ih =>
    rw [List.foldl_cons]
    have hne : addr ≠ b := fun h => hnin (h ▸ List.mem_cons_self b L)
    have hnin' : addr ∉ L := fun h => hnin (List.mem_cons_of_mem b h)
    obtain ⟨h1, h2⟩ := ih (t.finaliseStep de b) hnin' (finaliseStep_wf de t b hwf)
    exact ⟨h1.trans (finaliseStep_lookup_other de t b addr hne), h2⟩

/-- `Finalise` deletes a suicided dirty object's account from the trie. -/
theorem finalise_deletes_suicided (de : Bool) (s₂ : StateDB) (addr : Addr)
    (hwf : WFObjects s₂)
    (hmem : addr ∈ s₂.journal.dirties)
    (o : StateObject)
    (hl : lookupA s₂.stateObjects addr = some o)
    (hsui : o.suicided = true) :
    lookupA (s₂.finalise de).trie.slots addr = none := by
  have hmem' : addr ∈ s₂.journal.dirties.dedup := List.mem_dedup.mpr hmem
  obtain ⟨L₁, L₂, hsplit⟩ := List.append_of_mem hmem'
  have hnd : (L₁ ++ addr :: L₂).Nodup := hsplit ▸ List.nodup_dedup _
  have hnin : addr ∉ L₁ := by
    obtain ⟨_, _, hdisj⟩ := List.nodup_append.mp hnd
    intro hin
    exact hdisj hin (List.mem_cons_self addr L₂)
  show lookupA ((s₂.journal.dirties.dedup.foldl (StateDB.finaliseStep de) s₂)).trie.slots addr = none
  rw [hsplit, List.foldl_append, List.foldl_cons]
  obtain ⟨hu1, hu2⟩ := finalise_fold_untouched de L₁ s₂ addr hnin hwf
  have hl₁ : lookupA (L₁.foldl (StateDB.finaliseStep de) s₂).stateObjects addr = some o :=
    hu1.trans hl
  set t₁ := L₁.foldl (StateDB.finaliseStep de) s₂ with ht₁
  have haddr : o.account.address = addr := hu2 (addr, o) (lookupA_mem hl₁)
  have hstep : t₁.finaliseStep de addr =
      { t₁.deleteStateObject addr o with
        stateObjectsDirty := insertS (t₁.deleteStateObject addr o).stateObjectsDirty addr } := by
    unfold StateDB.finaliseStep
    rw [hl₁]
    dsimp only []
    rw [if_pos (by rw [hsui]; rfl)]
  rw [hstep]
  refine finalise_fold_keeps de L₂ _ addr ?_ ?_ ?_
  · exact wf_insert hu2 (show ({ o with deleted := true } : StateObject).account.address = addr from haddr) _ rfl
  · unfold StateDB.deleteStateObject
    dsimp only []
    rw [lookupA_eraseA]
    split
    · rfl
    · rename_i hcon
      exact absurd haddr (fun h => hcon h.symm)
  · intro o' ho'
    unfold StateDB.deleteStateObject at ho'
    dsimp only [] at ho'
    rw [lookupA_insertA, if_pos rfl] at ho'
    have : o' = { o with deleted := true } := by simpa using ho'.symm
    rw [this]
    exact hsui

/-- C6: on a live object, `Suicide(addr)` journals a `suicideChange` with the
previous flag and balance, marks the object suicided, zeroes its balance and
returns true; afterwards the balance reads 0, `HasSuicided` is true and the
object still exists, and `Finalise` deletes the account from the trie. -/
theorem C6_suicide_marks_and_finalise_deletes (s : StateDB) (addr : Addr)
    (obj : StateObject) (hwf : WFObjects s)
    (hg : (s.getStateObject addr).1 = some obj) :
    (s.suicide addr).1 = true
    ∧ (s.suicide addr).2.journal.entries =
        s.journal.entries
          ++ [JournalEntry.suicideChange addr obj.suicided obj.account.balance]
    ∧ ((s.suicide addr).2.getBalance addr).1 = 0
    ∧ ((s.suicide addr).2.hasSuicided addr).1 = true
    ∧ ((s.suicide addr).2.exist addr).1 = true
    ∧ (∀ de, lookupA ((s.suicide addr).2.finalise de).trie.slots addr = none) := by
  obtain ⟨haddr, hdel, hlk1, hwf1⟩ := getStateObject_some_spec hwf hg
  rcases hpair : s.getStateObject addr with ⟨o, s₁⟩
  have ho : o = some obj := by rw [← hg, hpair]
  subst ho
  rw [hpair] at hlk1 hwf1
  have hj : s₁.journal = s.journal := by
    have hf := (getStateObject_frame s addr).1
    rw [hpair] at hf
    exact hf
  have hsuic : s.suicide addr =
      (true,
        { s₁ with
          journal := s₁.journal.append
            (.suicideChange addr obj.suicided obj.account.balance),
          stateObjects := insertA s₁.stateObjects addr
            { obj with suicided := true,
                       account := { obj.account with balance := 0 } } }) := by
    unfold StateDB.suicide
    rw [hpair]
  rw [hsuic]
  have hlk2 : lookupA (insertA s₁.stateObjects addr
      { obj with suicided := true,
                 account := { obj.account with balance := 0 } }) addr =
      some { obj with suicided := true,
                      account := { obj.account with balance := 0 } } := by
    rw [lookupA_insertA, if_pos rfl]
  have hg2 : ∀ (S : StateDB), S.stateObjects = insertA s₁.stateObjects addr
      { obj with suicided := true,
                 account := { obj.account with balance := 0 } } →
      S.getStateObject addr =
        (some { obj with suicided := true,
                         account := { obj.account with balance := 0 } }, S) := by
    intro S hS
    exact getStateObject_live S addr _ (hS ▸ hlk2) (by simpa using hdel)
  refine ⟨rfl, ?_, ?_, ?_, ?_, ?_⟩
  · rw [Journal.append_entries, hj]
  · unfold StateDB.getBalance
    rw [hg2 _ rfl]
  · unfold StateDB.hasSuicided
    rw [hg2 _ rfl]
  · unfold StateDB.exist
    rw [hg2 _ rfl]
    rfl
  · intro de
    refine finalise_deletes_suicided de _ addr ?_ ?_ _ hlk2 rfl
    · have haddr' : ({ obj with suicided := true, account := { obj.account with balance := 0 } } : StateObject).account.address = addr := haddr
      exact wf_insert hwf1 haddr' _ rfl
    · show addr ∈ (s₁.journal.append
        (.suicideChange addr obj.suicided obj.account.balance)).dirties
      unfold Journal.append
      dsimp only [JournalEntry.dirtiedAddress]
      exact List.mem_cons_self addr _

/-- Witness for C6 at the fixture: address 4 is stored in the trie with
balance 10. -/
theorem C6_witness :
    (fxS.suicide 4).1 = true
    ∧ (fxS.suicide 4).2.journal.entries =
        fxS.journal.entries
          ++ [JournalEntry.suicideChange 4 (newStateObject 4 fxAcct).suicided
                (newStateObject 4 fxAcct).account.balance]
    ∧ ((fxS.suicide 4).2.getBalance 4).1 = 0
    ∧ ((fxS.suicide 4).2.hasSuicided 4).1 = true
    ∧ ((fxS.suicide 4).2.exist 4).1 = true
    ∧ lookupA ((fxS.suicide 4).2.finalise true).trie.slots 4 = none := by
  have h := C6_suicide_marks_and_finalise_deletes fxS 4 (newStateObject 4 fxAcct)
    (by
      intro p hp
      rw [show fxS.stateObjects = ([] : List (Addr × StateObject)) from rfl] at hp
      exact absurd hp (List.not_mem_nil p)) rfl
  exact ⟨h.1, h.2.1, h.2.2.1, h.2.2.2.1, h.2.2.2.2.1, h.2.2.2.2.2 true⟩
